import Mathlib

/-!
# Verification of the game-theory simulation engine

Shallow embedding of the strategy-selection, equilibrium-analysis, belief-update
and simulation-controller code of the repository
(`src/utils/gameTheory.ts` and the game store in `src/unnamed/part_006`).

Embedding conventions:
* JavaScript numbers are embedded as rationals (`ℚ`); strategy-combination keys
  are Lean `String`s built exactly as the source builds them (comma-joined).
* A JavaScript object used as a map is embedded as an association list with
  `List.lookup`; a missing property reads as `none` (JS `undefined`).
* A computation that would throw a `TypeError` in JS (indexing a missing payoff
  entry, reading a field of `undefined`) is embedded as `none` of an
  `Option`-valued function.
* `Math.random()`-driven draws are embedded as an explicit `rand : Nat`
  parameter; a draw of an index below `n` is `rand % n`.
* `parseFloat` (used only by the Stackelberg quantity heuristics, whose exact
  numeric values never matter for the verified properties) is abstracted as an
  explicit `parse : String → ℚ` parameter.
-/

namespace GameSim

/-- The `GameType` enum of `src/types/gameTheory.ts`. -/
inductive GameType where
  | completeStatic
  | completeDynamic
  | incompleteStatic
  | incompleteDynamic
  | stackelbergType
  | entryDeterrenceType
  | signalingType
deriving DecidableEq, Repr

/-- A player: id, display name, ordered strategy list (`src/types/gameTheory.ts`). -/
structure Player where
  id : String
  name : String
  strategies : List String
deriving DecidableEq, Repr

/-- A game model: id, type tag, players, payoff matrix keyed by comma-joined
strategy combinations, optional recommended round bounds
(`src/types/gameTheory.ts`). -/
structure GameModel where
  id : String
  type : GameType
  players : List Player
  payoffMatrix : List (String × List ℚ)
  recommendedRounds : Option (Nat × Nat) := none
deriving DecidableEq, Repr

/-- One round's record: step index, per-player choices and payoffs, free-form
signals (`src/types/gameTheory.ts`).  Beliefs are derived state and are not
needed by any verified property, so they are omitted from the record. -/
structure SimulationResult where
  step : Nat
  playerChoices : List (String × String)
  payoffs : List (String × ℚ)
  signals : List (String × String) := []
deriving DecidableEq, Repr

instance : Inhabited Player := ⟨⟨"", "", []⟩⟩

instance : Inhabited SimulationResult := ⟨⟨0, [], [], []⟩⟩

/-- The comma-joined two-player payoff key, in player order: when the caller is
player 0 its strategy comes first, otherwise second (the pattern
`playerIndex === 0 ? strat,opp : opp,strat` used throughout the source). -/
def pairKey (playerIndex : Nat) (myStrat oppStrat : String) : String :=
  if playerIndex == 0 then myStrat ++ "," ++ oppStrat else oppStrat ++ "," ++ myStrat

/-- JS `a <= b` on possibly-`undefined` numbers: any comparison involving
`undefined` (i.e. `NaN`) evaluates to `false`. -/
def jsLe (a b : Option ℚ) : Bool :=
  match a, b with
  | some x, some y => decide (x ≤ y)
  | _, _ => false

/-- JS `a > b` on possibly-`undefined` numbers. -/
def jsGt (a b : Option ℚ) : Bool :=
  match a, b with
  | some x, some y => decide (y < x)
  | _, _ => false

/-- The payoff entry for a key (JS `model.payoffMatrix[key]`). -/
def payoffEntry (m : GameModel) (key : String) : Option (List ℚ) :=
  List.lookup key m.payoffMatrix

/-- `findDominantStrategy` (`src/utils/gameTheory.ts` lines 12-53), inner test:
does strategy `i` strictly beat strategy `j` against every opponent strategy?
The source disqualifies `i` when either payoff entry is missing or when
`payoffs1[playerIndex] <= payoffs2[playerIndex]` holds; a comparison whose
operand is `undefined` (entry shorter than `playerIndex + 1`) is `false` in JS
and therefore does NOT disqualify. -/
def dominatesAll (m : GameModel) (pi' : Nat) (player opponent : Player) (i j : Nat) : Bool :=
  opponent.strategies.all fun os =>
    match payoffEntry m (pairKey pi' (player.strategies.getD i "") os),
          payoffEntry m (pairKey pi' (player.strategies.getD j "") os) with
    | some p1, some p2 => ! jsLe (p1.get? pi') (p2.get? pi')
    | _, _ => false

/-- `findDominantStrategy`, outer test for one candidate index. -/
def isDominantIdx (m : GameModel) (pi' : Nat) (player opponent : Player) (i : Nat) : Bool :=
  (List.range player.strategies.length).all fun j =>
    i == j || dominatesAll m pi' player opponent i j

/-- `findDominantStrategy` (`src/utils/gameTheory.ts` lines 12-53): first
strategy index that strictly beats every other strategy of the caller against
every opponent strategy; `none` if the player id is not found or no index
qualifies.  Faithful for two-player models (the source computes
`opponentIndex = 1 - playerIndex`, meaningful only for indices 0 and 1; with
the opponent slot `undefined` and at least two caller strategies the source
instead throws at `opponent.strategies` — `findDominantStrategyE` below
keeps that TypeError as an outer `none`). -/
def findDominantStrategy (m : GameModel) (playerId : String) : Option Nat :=
  match m.players.findIdx? (fun p => p.id == playerId) with
  | none => none
  | some pi' =>
    let player := (m.players.get? pi').getD default
    let opponent := (m.players.get? (1 - pi')).getD default
    (List.range player.strategies.length).find? (isDominantIdx m pi' player opponent)

/-- `find?` over `List.range n` returns exactly the least index below `n`
satisfying the predicate (the semantics of the source's early-return `for`
loops). -/
theorem range_find?_eq_some_iff {p : Nat → Bool} {n i : Nat} :
    (List.range n).find? p = some i ↔
      i < n ∧ p i = true ∧ ∀ j < i, p j = false := by
  induction n generalizing i with
  | zero => simp
  | succ n ih =>
    rw [List.range_succ, List.find?_append]
    rcases h : List.find? p (List.range n) with _ | j
    · have hnone : ∀ j, j < n → p j = false := fun j hj => by
        simpa using List.find?_eq_none.mp h j (List.mem_range.mpr hj)
      simp only [Option.none_or]
      by_cases hpn : p n = true
      · rw [List.find?_cons_of_pos _ hpn]
        constructor
        · intro hsome
          obtain rfl : n = i := by simpa using hsome
          exact ⟨Nat.lt_succ_self n, hpn, hnone⟩
        · rintro ⟨hi, hpi, -⟩
          rcases Nat.lt_succ_iff_lt_or_eq.mp hi with h1 | h1
          · exact absurd hpi (by simp [hnone i h1])
          · simp [h1]
      · rw [List.find?_cons_of_neg _ hpn, List.find?_nil]
        constructor
        · intro hsome; cases hsome
        · rintro ⟨hi, hpi, -⟩
          rcases Nat.lt_succ_iff_lt_or_eq.mp hi with h1 | h1
          · exact absurd hpi (by simp [hnone i h1])
          · subst h1; exact absurd hpi hpn
    · obtain ⟨hjn, hpj, hleastj⟩ := ih.mp h
      rw [Option.or_some]
      constructor
      · intro hsome
        obtain rfl : j = i := by simpa using hsome
        exact ⟨Nat.lt_succ_of_lt hjn, hpj, hleastj⟩
      · rintro ⟨hi, hpi, hleasti⟩
        obtain rfl : i = j := by
          rcases Nat.lt_trichotomy i j with h1 | h1 | h1
          · exact absurd hpi (by simp [hleastj i h1])
          · exact h1
          · exact absurd hpj (by simp [hleasti j h1])
        rfl

/-- The dominance property of claim C3, amended to the source's JS comparison
semantics: strategy `i` is dominant when, for every other strategy `j` and
every opponent strategy, both payoff entries exist and the comparison
`payoffs1[playerIndex] <= payoffs2[playerIndex]` evaluates to `false`
(for entries long enough this is exactly `payoff_j < payoff_i`; a
present-but-short entry makes the comparison `false` and never disqualifies). -/
def dominantProp (m : GameModel) (pi' : Nat) (player opponent : Player) (i : Nat) : Prop :=
  ∀ j < player.strategies.length, j ≠ i →
    ∀ os ∈ opponent.strategies,
      payoffEntry m (pairKey pi' (player.strategies.getD i "") os) ≠ none ∧
      payoffEntry m (pairKey pi' (player.strategies.getD j "") os) ≠ none ∧
      jsLe (((payoffEntry m (pairKey pi' (player.strategies.getD i "") os)).getD []).get? pi')
           (((payoffEntry m (pairKey pi' (player.strategies.getD j "") os)).getD []).get? pi')
        = false

instance dominantPropDecidable (m : GameModel) (pi' : Nat) (player opponent : Player)
    (i : Nat) : Decidable (dominantProp m pi' player opponent i) := by
  unfold dominantProp; infer_instance

/-- The code's per-index dominance test coincides with the amended dominance
property. -/
theorem isDominantIdx_iff (m : GameModel) (pi' : Nat) (player opponent : Player) (i : Nat) :
    isDominantIdx m pi' player opponent i = true ↔ dominantProp m pi' player opponent i := by
  unfold isDominantIdx dominantProp dominatesAll
  rw [List.all_eq_true]
  constructor
  · intro h j hj hji os hos
    have hj' := h j (List.mem_range.mpr hj)
    rw [Bool.or_eq_true] at hj'
    rcases hj' with hj' | hj'
    · have hij : i = j := by simpa using hj'
      exact absurd hij.symm hji
    · have := List.all_eq_true.mp hj' os hos
      revert this
      rcases h1 : payoffEntry m (pairKey pi' (player.strategies.getD i "") os) with _ | e1 <;>
        rcases h2 : payoffEntry m (pairKey pi' (player.strategies.getD j "") os) with _ | e2 <;>
        simp_all
  · intro h j hjmem
    rw [Bool.or_eq_true]
    by_cases hji : j = i
    · left; simp [hji]
    · right
      rw [List.all_eq_true]
      intro os hos
      obtain ⟨h1, h2, h3⟩ := h j (List.mem_range.mp hjmem) hji os hos
      rcases e1 : payoffEntry m (pairKey pi' (player.strategies.getD i "") os) with _ | v1
      · exact absurd e1 h1
      rcases e2 : payoffEntry m (pairKey pi' (player.strategies.getD j "") os) with _ | v2
      · exact absurd e2 h2
      rw [e1, e2] at h3
      simp_all

/-- C3 (amended): for a two-player model, `findDominantStrategy` returns `none`
when the player id is not found, and otherwise returns exactly the least
strategy index satisfying the (JS-comparison-semantics) dominance property, or
`none` when no index satisfies it. -/
theorem findDominantStrategy_characterization (m : GameModel) (playerId : String) :
    (m.players.findIdx? (fun p => p.id == playerId) = none →
      findDominantStrategy m playerId = none) ∧
    (∀ pi' player opponent,
      m.players.findIdx? (fun p => p.id == playerId) = some pi' →
      m.players.get? pi' = some player →
      m.players.get? (1 - pi') = some opponent →
      (∀ i, findDominantStrategy m playerId = some i ↔
          i < player.strategies.length ∧ dominantProp m pi' player opponent i ∧
          ∀ k < i, ¬ dominantProp m pi' player opponent k) ∧
      (findDominantStrategy m playerId = none ↔
          ∀ i < player.strategies.length, ¬ dominantProp m pi' player opponent i)) := by
  constructor
  · intro h
    unfold findDominantStrategy
    rw [h]
  · intro pi' player opponent hfind hp ho
    have hp2 : m.players[pi']? = some player := by
      simpa [List.get?_eq_getElem?] using hp
    have ho2 : m.players[1 - pi']? = some opponent := by
      simpa [List.get?_eq_getElem?] using ho
    have hdef : findDominantStrategy m playerId =
        (List.range player.strategies.length).find? (isDominantIdx m pi' player opponent) := by
      unfold findDominantStrategy
      rw [hfind]
      simp [hp2, ho2]
    constructor
    · intro i
      rw [hdef, range_find?_eq_some_iff]
      constructor
      · rintro ⟨h1, h2, h3⟩
        refine ⟨h1, (isDominantIdx_iff m pi' player opponent i).mp h2, fun k hk hdk => ?_⟩
        have := (isDominantIdx_iff m pi' player opponent k).mpr hdk
        simp [h3 k hk] at this
      · rintro ⟨h1, h2, h3⟩
        refine ⟨h1, (isDominantIdx_iff m pi' player opponent i).mpr h2, fun k hk => ?_⟩
        cases hb : isDominantIdx m pi' player opponent k with
        | false => rfl
        | true => exact absurd ((isDominantIdx_iff m pi' player opponent k).mp hb) (h3 k hk)
    · rw [hdef, List.find?_eq_none]
      constructor
      · intro h i hi hdi
        have := h i (List.mem_range.mpr hi)
        exact this ((isDominantIdx_iff m pi' player opponent i).mpr hdi)
      · intro h i hi hdi
        exact h i (List.mem_range.mp hi) ((isDominantIdx_iff m pi' player opponent i).mp hdi)

/-- The prisoner's-dilemma fixture of the repository's test suite
(`src/__tests__/simulation.test.ts` and `game.test.ts`). -/
def pdTestModel : GameModel :=
  { id := "prisoners-dilemma"
    type := GameType.completeStatic
    players := [⟨"1", "囚徒1", ["坦白", "抵赖"]⟩, ⟨"2", "囚徒2", ["坦白", "抵赖"]⟩]
    payoffMatrix := [("坦白,坦白", [-8, -8]), ("坦白,抵赖", [0, -10]),
                     ("抵赖,坦白", [-10, 0]), ("抵赖,抵赖", [-1, -1])] }

/-- Witness for C3: instantiating the characterization at the
prisoner's-dilemma fixture, strategy 0 (坦白) is the dominant strategy of
player 1. -/
theorem findDominantStrategy_characterization_witness :
    findDominantStrategy pdTestModel "1" = some 0 :=
  (((findDominantStrategy_characterization pdTestModel "1").2 0
      ⟨"1", "囚徒1", ["坦白", "抵赖"]⟩ ⟨"2", "囚徒2", ["坦白", "抵赖"]⟩
      (by decide) (by decide) (by decide)).1 0).mpr (by decide)

/-- The dominance property exactly as claim C3 words it: for every other
strategy `j` and every opponent strategy, both payoff entries exist and the
player's payoff from `i` strictly exceeds the payoff from `j` (so the two
payoff values must actually be present). -/
def strictDominantProp (m : GameModel) (pi' : Nat) (player opponent : Player) (i : Nat) : Bool :=
  (List.range player.strategies.length).all fun j =>
    i == j ||
    opponent.strategies.all fun os =>
      match payoffEntry m (pairKey pi' (player.strategies.getD i "") os),
            payoffEntry m (pairKey pi' (player.strategies.getD j "") os) with
      | some p1, some p2 =>
        match p1.get? pi', p2.get? pi' with
        | some x, some y => decide (y < x)
        | _, _ => false
      | _, _ => false

/-- A malformed two-player model whose payoff entries are present but empty:
the comparison `payoffs1[0] <= payoffs2[0]` is `undefined <= undefined`,
which is `false` in JS, so nothing disqualifies strategy 0. -/
def shortEntryModel : GameModel :=
  { id := "cex"
    type := GameType.completeStatic
    players := [⟨"1", "A", ["a", "b"]⟩, ⟨"2", "B", ["c"]⟩]
    payoffMatrix := [("a,c", []), ("b,c", [])] }

/-- Counterexample to C3 as stated: on `shortEntryModel` the code returns
index 0 even though no strategy satisfies the claim's dominance property
(which requires the payoff from `i` to strictly exceed the payoff from `j`,
impossible when the entries hold no values): present-but-short entries do not
disqualify a candidate, contrary to the claim's reading. -/
theorem findDominantStrategy_shortEntry_cex :
    findDominantStrategy shortEntryModel "1" = some 0 ∧
    (strictDominantProp shortEntryModel 0
        ⟨"1", "A", ["a", "b"]⟩ ⟨"2", "B", ["c"]⟩ 0 = false) ∧
    (strictDominantProp shortEntryModel 0
        ⟨"1", "A", ["a", "b"]⟩ ⟨"2", "B", ["c"]⟩ 1 = false) := by
  refine ⟨by decide, by decide, by decide⟩

/-! ## Mixed-strategy equilibrium (`calculateMixedEquilibrium`,
`src/utils/gameTheory.ts` lines 117-196)

JS `NaN` (arising from arithmetic on a missing payoff value) is embedded as
`none`; every JS comparison with `NaN` is `false`. -/

/-- Arithmetic on possibly-`NaN` numbers: subtraction. -/
def optSub (a b : Option ℚ) : Option ℚ :=
  match a, b with
  | some x, some y => some (x - y)
  | _, _ => none

/-- Arithmetic on possibly-`NaN` numbers: addition. -/
def optAdd (a b : Option ℚ) : Option ℚ :=
  match a, b with
  | some x, some y => some (x + y)
  | _, _ => none

/-- Division on possibly-`NaN` numbers.  Every division in the source is
guarded by `Math.abs(denominator) >= 1e-10`, so a zero divisor is unreachable;
it is mapped to `none` for definiteness. -/
def optDiv (a b : Option ℚ) : Option ℚ :=
  match a, b with
  | some x, some y => if y = 0 then none else some (x / y)
  | _, _ => none

/-- JS `Math.abs`. -/
def jsAbs (x : ℚ) : ℚ := if x < 0 then -x else x

/-- JS `Math.abs(d) < 1e-10` (false on `NaN`). -/
def jsAbsLtEps (a : Option ℚ) : Bool :=
  match a with
  | some x => decide (jsAbs x < 1 / 10000000000)
  | none => false

/-- JS `Math.max(0.3, Math.min(0.7, p))`; `NaN` propagates. -/
def jsClamp (p : Option ℚ) : Option ℚ :=
  p.map fun x => max (3 / 10) (min (7 / 10) x)

/-- The test `isNaN(p) || p < 0.3 || p > 0.7` of the source's validity check. -/
def invalidProb (p : Option ℚ) : Bool :=
  match p with
  | none => true
  | some x => decide (x < 3 / 10) || decide (7 / 10 < x)

/-- The payoff entry for the strategy pair `(i, j)` of players 0 and 1
(`payoffs00` … `payoffs11` in the source). -/
def mixedEntry (m : GameModel) (i j : Nat) : Option (List ℚ) :=
  let player1 := (m.players.get? 0).getD default
  let player2 := (m.players.get? 1).getD default
  payoffEntry m (player1.strategies.getD i "" ++ "," ++ player2.strategies.getD j "")

/-- Player 1's payoff value at the pair `(i, j)` (`a11` … `a22`). -/
def mixedA (m : GameModel) (i j : Nat) : Option ℚ :=
  (mixedEntry m i j).bind fun e => e.get? 0

/-- Player 2's payoff value at the pair `(i, j)` (`b11` … `b22`). -/
def mixedB (m : GameModel) (i j : Nat) : Option ℚ :=
  (mixedEntry m i j).bind fun e => e.get? 1

/-- `denominator1 = b11 - b12 - b21 + b22`. -/
def denom1 (m : GameModel) : Option ℚ :=
  optAdd (optSub (optSub (mixedB m 0 0) (mixedB m 0 1)) (mixedB m 1 0)) (mixedB m 1 1)

/-- `denominator2 = a11 - a12 - a21 + a22`. -/
def denom2 (m : GameModel) : Option ℚ :=
  optAdd (optSub (optSub (mixedA m 0 0) (mixedA m 0 1)) (mixedA m 1 0)) (mixedA m 1 1)

/-- The exact indifference probability `p1 = (b22 - b12) / denominator1`. -/
def rawP1 (m : GameModel) : Option ℚ :=
  optDiv (optSub (mixedB m 1 1) (mixedB m 0 1)) (denom1 m)

/-- The exact indifference probability `p2 = (a22 - a21) / denominator2`. -/
def rawP2 (m : GameModel) : Option ℚ :=
  optDiv (optSub (mixedA m 1 1) (mixedA m 1 0)) (denom2 m)

/-- `calculateMixedEquilibrium` (`src/utils/gameTheory.ts` lines 117-196):
`none` when either of the first two players is missing, a strategy count is
not 2, or one of the four payoff entries is absent; a hard-coded pair for the
`entry-deterrence-complete` model id; otherwise the indifference computation
with the near-zero-denominator fallback (0.7/0.3 by payoff comparison, then
clamping into `[0.3, 0.7]`) and the final validity check defaulting to
`(0.5, 0.5)`. -/
def calculateMixedEquilibrium (m : GameModel) : Option (Option ℚ × Option ℚ) :=
  match m.players.get? 0, m.players.get? 1 with
  | some player1, some player2 =>
    if player1.strategies.length != 2 || player2.strategies.length != 2 then none
    else if !((mixedEntry m 0 0).isSome && (mixedEntry m 0 1).isSome &&
              (mixedEntry m 1 0).isSome && (mixedEntry m 1 1).isSome) then none
    else if m.id == "entry-deterrence-complete" then some (some (7 / 10), some (3 / 10))
    else if jsAbsLtEps (denom1 m) || jsAbsLtEps (denom2 m) then
      let p1 := if jsAbsLtEps (denom1 m) then
                  (if jsGt (mixedB m 0 0) (mixedB m 1 0) then some ((7 : ℚ) / 10)
                   else some ((3 : ℚ) / 10))
                else optDiv (optSub (mixedB m 1 1) (mixedB m 0 1)) (denom1 m)
      let p2 := if jsAbsLtEps (denom2 m) then
                  (if jsGt (mixedA m 0 0) (mixedA m 0 1) then some ((7 : ℚ) / 10)
                   else some ((3 : ℚ) / 10))
                else optDiv (optSub (mixedA m 1 1) (mixedA m 1 0)) (denom2 m)
      some (jsClamp p1, jsClamp p2)
    else if invalidProb (rawP1 m) || invalidProb (rawP2 m) then
      some (some (1 / 2), some (1 / 2))
    else some (rawP1 m, rawP2 m)
  | _, _ => none

/-- `jsClamp` of a real value stays in `[0.3, 0.7]`. -/
theorem jsClamp_mem (x : ℚ) :
    3 / 10 ≤ max (3 / 10) (min (7 / 10) x) ∧ max (3 / 10) (min (7 / 10) x) ≤ 7 / 10 :=
  ⟨le_max_left _ _, max_le (by norm_num) (min_le_left _ _)⟩

/-- C4: for every 2×2 model whose four payoff entries are present with both
payoff values, `calculateMixedEquilibrium` returns real (never `NaN`)
probabilities in `[0.3, 0.7]`; when the exact computation is performed and
yields an invalid probability both components default to `0.5`; and when a
denominator is within `1e-10` of zero the payoff-comparison fallback yields
`0.7` or `0.3` for that component. -/
theorem calculateMixedEquilibrium_range (m : GameModel) (P1 P2 : Player)
    (e00 e01 e10 e11 : List ℚ)
    (h0 : m.players.get? 0 = some P1) (h1 : m.players.get? 1 = some P2)
    (hl1 : P1.strategies.length = 2) (hl2 : P2.strategies.length = 2)
    (h00 : mixedEntry m 0 0 = some e00) (hL00 : 2 ≤ e00.length)
    (h01 : mixedEntry m 0 1 = some e01) (hL01 : 2 ≤ e01.length)
    (h10 : mixedEntry m 1 0 = some e10) (hL10 : 2 ≤ e10.length)
    (h11 : mixedEntry m 1 1 = some e11) (hL11 : 2 ≤ e11.length) :
    (∃ p1 p2 : ℚ, calculateMixedEquilibrium m = some (some p1, some p2) ∧
      3 / 10 ≤ p1 ∧ p1 ≤ 7 / 10 ∧ 3 / 10 ≤ p2 ∧ p2 ≤ 7 / 10) ∧
    (m.id ≠ "entry-deterrence-complete" →
      jsAbsLtEps (denom1 m) = false → jsAbsLtEps (denom2 m) = false →
      (invalidProb (rawP1 m) || invalidProb (rawP2 m)) = true →
      calculateMixedEquilibrium m = some (some (1 / 2), some (1 / 2))) ∧
    (m.id ≠ "entry-deterrence-complete" → jsAbsLtEps (denom1 m) = true →
      ∃ q, calculateMixedEquilibrium m =
        some (if jsGt (mixedB m 0 0) (mixedB m 1 0) then some ((7 : ℚ) / 10)
              else some ((3 : ℚ) / 10), q)) ∧
    (m.id ≠ "entry-deterrence-complete" → jsAbsLtEps (denom2 m) = true →
      ∃ q, calculateMixedEquilibrium m =
        some (q, if jsGt (mixedA m 0 0) (mixedA m 0 1) then some ((7 : ℚ) / 10)
                 else some ((3 : ℚ) / 10))) := by
  obtain ⟨a00, ha00⟩ : ∃ x, mixedA m 0 0 = some x := by
    refine ⟨e00.get ⟨0, by omega⟩, ?_⟩
    simp [mixedA, h00, List.get?_eq_get (show 0 < e00.length by omega)]
  obtain ⟨a01, ha01⟩ : ∃ x, mixedA m 0 1 = some x := by
    refine ⟨e01.get ⟨0, by omega⟩, ?_⟩
    simp [mixedA, h01, List.get?_eq_get (show 0 < e01.length by omega)]
  obtain ⟨a10, ha10⟩ : ∃ x, mixedA m 1 0 = some x := by
    refine ⟨e10.get ⟨0, by omega⟩, ?_⟩
    simp [mixedA, h10, List.get?_eq_get (show 0 < e10.length by omega)]
  obtain ⟨a11, ha11⟩ : ∃ x, mixedA m 1 1 = some x := by
    refine ⟨e11.get ⟨0, by omega⟩, ?_⟩
    simp [mixedA, h11, List.get?_eq_get (show 0 < e11.length by omega)]
  obtain ⟨b00, hb00⟩ : ∃ x, mixedB m 0 0 = some x := by
    refine ⟨e00.get ⟨1, by omega⟩, ?_⟩
    simp [mixedB, h00, List.get?_eq_get (show 1 < e00.length by omega)]
  obtain ⟨b01, hb01⟩ : ∃ x, mixedB m 0 1 = some x := by
    refine ⟨e01.get ⟨1, by omega⟩, ?_⟩
    simp [mixedB, h01, List.get?_eq_get (show 1 < e01.length by omega)]
  obtain ⟨b10, hb10⟩ : ∃ x, mixedB m 1 0 = some x := by
    refine ⟨e10.get ⟨1, by omega⟩, ?_⟩
    simp [mixedB, h10, List.get?_eq_get (show 1 < e10.length by omega)]
  obtain ⟨b11, hb11⟩ : ∃ x, mixedB m 1 1 = some x := by
    refine ⟨e11.get ⟨1, by omega⟩, ?_⟩
    simp [mixedB, h11, List.get?_eq_get (show 1 < e11.length by omega)]
  have hden1 : denom1 m = some (b00 - b01 - b10 + b11) := by
    simp [denom1, optAdd, optSub, hb00, hb01, hb10, hb11]
  have hden2 : denom2 m = some (a00 - a01 - a10 + a11) := by
    simp [denom2, optAdd, optSub, ha00, ha01, ha10, ha11]
  have hclamp7 : jsClamp (some ((7 : ℚ) / 10)) = some ((7 : ℚ) / 10) := by
    norm_num [jsClamp, max_def, min_def]
  have hclamp3 : jsClamp (some ((3 : ℚ) / 10)) = some ((3 : ℚ) / 10) := by
    norm_num [jsClamp, max_def, min_def]
  have hcalc : calculateMixedEquilibrium m =
      (if m.id == "entry-deterrence-complete" then some (some (7 / 10), some (3 / 10))
       else if jsAbsLtEps (denom1 m) || jsAbsLtEps (denom2 m) then
         some (jsClamp (if jsAbsLtEps (denom1 m) then
                  (if jsGt (mixedB m 0 0) (mixedB m 1 0) then some ((7 : ℚ) / 10)
                   else some ((3 : ℚ) / 10))
                else optDiv (optSub (mixedB m 1 1) (mixedB m 0 1)) (denom1 m)),
               jsClamp (if jsAbsLtEps (denom2 m) then
                  (if jsGt (mixedA m 0 0) (mixedA m 0 1) then some ((7 : ℚ) / 10)
                   else some ((3 : ℚ) / 10))
                else optDiv (optSub (mixedA m 1 1) (mixedA m 1 0)) (denom2 m)))
       else if invalidProb (rawP1 m) || invalidProb (rawP2 m) then
         some (some (1 / 2), some (1 / 2))
       else some (rawP1 m, rawP2 m)) := by
    unfold calculateMixedEquilibrium
    rw [h0, h1]
    simp [hl1, hl2, h00, h01, h10, h11]
  by_cases hid : m.id = "entry-deterrence-complete"
  · rw [hcalc]
    simp only [hid, beq_self_eq_true, if_true]
    exact ⟨⟨7 / 10, 3 / 10, rfl, by norm_num⟩,
      fun h => absurd rfl h, fun h => absurd rfl h, fun h => absurd rfl h⟩
  · have hidb : (m.id == "entry-deterrence-complete") = false := by
      simpa using hid
    rw [hcalc]
    simp only [hidb, Bool.false_eq_true, if_false]
    have hP1const : ∀ u v : Option ℚ, ∃ c : ℚ, 3 / 10 ≤ c ∧ c ≤ 7 / 10 ∧
        (if jsGt u v then some ((7 : ℚ) / 10) else some ((3 : ℚ) / 10)) = some c ∧
        jsClamp (some c) = some c := by
      intro u v
      by_cases hg : jsGt u v = true
      · exact ⟨7 / 10, by norm_num, by norm_num, by simp [hg], hclamp7⟩
      · have hg' : jsGt u v = false := by simpa using hg
        exact ⟨3 / 10, by norm_num, by norm_num, by simp [hg'], hclamp3⟩
    refine ⟨?_, ?_, ?_, ?_⟩
    · -- range: all four branch combinations give both components in [0.3, 0.7]
      by_cases hd1 : jsAbsLtEps (denom1 m) = true <;>
        by_cases hd2 : jsAbsLtEps (denom2 m) = true
      · obtain ⟨c1, hc1l, hc1r, hP1, hK1⟩ := hP1const (mixedB m 0 0) (mixedB m 1 0)
        obtain ⟨c2, hc2l, hc2r, hP2, hK2⟩ := hP1const (mixedA m 0 0) (mixedA m 0 1)
        refine ⟨c1, c2, ?_, hc1l, hc1r, hc2l, hc2r⟩
        simp only [hd1, hd2, Bool.true_or, if_true, hP1, hP2, hK1, hK2]
      · have hd2' : jsAbsLtEps (denom2 m) = false := by simpa using hd2
        have hD2ne : a00 - a01 - a10 + a11 ≠ 0 := by
          intro hz
          rw [hden2, hz] at hd2'
          norm_num [jsAbsLtEps, jsAbs] at hd2'
        have hp2 : optDiv (optSub (mixedA m 1 1) (mixedA m 1 0)) (denom2 m) =
            some ((a11 - a10) / (a00 - a01 - a10 + a11)) := by
          simp [optDiv, optSub, ha11, ha10, hden2, hD2ne]
        obtain ⟨c1, hc1l, hc1r, hP1, hK1⟩ := hP1const (mixedB m 0 0) (mixedB m 1 0)
        refine ⟨c1, max (3 / 10) (min (7 / 10) ((a11 - a10) / (a00 - a01 - a10 + a11))), ?_,
          hc1l, hc1r,
          (jsClamp_mem ((a11 - a10) / (a00 - a01 - a10 + a11))).1,
          (jsClamp_mem ((a11 - a10) / (a00 - a01 - a10 + a11))).2⟩
        simp only [hd1, hd2', Bool.true_or, if_true, Bool.false_eq_true, if_false,
          hP1, hK1, hp2]
        rfl
      · have hd1' : jsAbsLtEps (denom1 m) = false := by simpa using hd1
        have hD1ne : b00 - b01 - b10 + b11 ≠ 0 := by
          intro hz
          rw [hden1, hz] at hd1'
          norm_num [jsAbsLtEps, jsAbs] at hd1'
        have hq1 : optDiv (optSub (mixedB m 1 1) (mixedB m 0 1)) (denom1 m) =
            some ((b11 - b01) / (b00 - b01 - b10 + b11)) := by
          simp [optDiv, optSub, hb11, hb01, hden1, hD1ne]
        obtain ⟨c2, hc2l, hc2r, hP2, hK2⟩ := hP1const (mixedA m 0 0) (mixedA m 0 1)
        refine ⟨max (3 / 10) (min (7 / 10) ((b11 - b01) / (b00 - b01 - b10 + b11))), c2, ?_,
          (jsClamp_mem ((b11 - b01) / (b00 - b01 - b10 + b11))).1,
          (jsClamp_mem ((b11 - b01) / (b00 - b01 - b10 + b11))).2,
          hc2l, hc2r⟩
        simp only [hd1', hd2, Bool.false_or, if_true, Bool.false_eq_true, if_false,
          hq1, hP2, hK2]
        rfl
      · have hd1' : jsAbsLtEps (denom1 m) = false := by simpa using hd1
        have hd2' : jsAbsLtEps (denom2 m) = false := by simpa using hd2
        have hD1ne : b00 - b01 - b10 + b11 ≠ 0 := by
          intro hz
          rw [hden1, hz] at hd1'
          norm_num [jsAbsLtEps, jsAbs] at hd1'
        have hD2ne : a00 - a01 - a10 + a11 ≠ 0 := by
          intro hz
          rw [hden2, hz] at hd2'
          norm_num [jsAbsLtEps, jsAbs] at hd2'
        have hp1 : rawP1 m = some ((b11 - b01) / (b00 - b01 - b10 + b11)) := by
          simp [rawP1, optDiv, optSub, hb11, hb01, hden1, hD1ne]
        have hp2 : rawP2 m = some ((a11 - a10) / (a00 - a01 - a10 + a11)) := by
          simp [rawP2, optDiv, optSub, ha11, ha10, hden2, hD2ne]
        simp only [hd1', hd2', Bool.or_self, Bool.false_eq_true, if_false]
        by_cases hinv : (invalidProb (rawP1 m) || invalidProb (rawP2 m)) = true
        · simp only [hinv, if_true]
          exact ⟨1 / 2, 1 / 2, rfl, by norm_num⟩
        · have hinv' : (invalidProb (rawP1 m) || invalidProb (rawP2 m)) = false := by
            simpa using hinv
          simp only [hinv', Bool.false_eq_true, if_false]
          rw [Bool.or_eq_false_iff] at hinv'
          obtain ⟨hi1, hi2⟩ := hinv'
          rw [hp1] at hi1
          rw [hp2] at hi2
          simp only [invalidProb, Bool.or_eq_false_iff, decide_eq_false_iff_not,
            not_lt] at hi1 hi2
          exact ⟨(b11 - b01) / (b00 - b01 - b10 + b11),
                 (a11 - a10) / (a00 - a01 - a10 + a11),
                 by rw [hp1, hp2], hi1.1, hi1.2, hi2.1, hi2.2⟩
    · -- exact computation performed but invalid: default to (0.5, 0.5)
      intro _ hd1' hd2' hinv
      simp only [hd1', hd2', Bool.or_self, Bool.false_eq_true, if_false, hinv, if_true]
    · -- denominator 1 near zero: first component is the payoff-comparison fallback
      intro _ hd1
      obtain ⟨c1, hc1l, hc1r, hP1, hK1⟩ := hP1const (mixedB m 0 0) (mixedB m 1 0)
      refine ⟨jsClamp (if jsAbsLtEps (denom2 m) then
          (if jsGt (mixedA m 0 0) (mixedA m 0 1) then some ((7 : ℚ) / 10)
           else some ((3 : ℚ) / 10))
          else optDiv (optSub (mixedA m 1 1) (mixedA m 1 0)) (denom2 m)), ?_⟩
      simp only [hd1, Bool.true_or, if_true, eq_self_iff_true, hP1, hK1]
    · -- denominator 2 near zero: second component is the payoff-comparison fallback
      intro _ hd2
      obtain ⟨c2, hc2l, hc2r, hP2, hK2⟩ := hP1const (mixedA m 0 0) (mixedA m 0 1)
      refine ⟨jsClamp (if jsAbsLtEps (denom1 m) then
          (if jsGt (mixedB m 0 0) (mixedB m 1 0) then some ((7 : ℚ) / 10)
           else some ((3 : ℚ) / 10))
          else optDiv (optSub (mixedB m 1 1) (mixedB m 0 1)) (denom1 m)), ?_⟩
      simp only [hd2, Bool.or_true, if_true, eq_self_iff_true, hP2, hK2]

/-- Witness for C4: on the prisoner's-dilemma fixture the indifference
computation yields 9 (outside `[0.3, 0.7]`), so both probabilities default to
`0.5`. -/
theorem calculateMixedEquilibrium_range_witness :
    calculateMixedEquilibrium pdTestModel = some (some (1 / 2), some (1 / 2)) :=
  (calculateMixedEquilibrium_range pdTestModel
      ⟨"1", "囚徒1", ["坦白", "抵赖"]⟩ ⟨"2", "囚徒2", ["坦白", "抵赖"]⟩
      [-8, -8] [0, -10] [-10, 0] [-1, -1]
      (by decide) (by decide) (by decide) (by decide)
      (by decide) (by decide) (by decide) (by decide)
      (by decide) (by decide) (by decide) (by decide)).2.1
    (by decide) (by with_unfolding_all decide) (by with_unfolding_all decide)
    (by with_unfolding_all decide)

/-! ## Result analysis (`analyzeGameResults`, `src/utils/gameTheory.ts`
lines 534-640) -/

/-- JS `list.slice(-n)`: the most recent `n` elements. -/
def takeLast {α : Type} (n : Nat) (l : List α) : List α := l.drop (l.length - n)

/-- A JS number that may be `-Infinity` (`⊥`) or `NaN` (`none`): the values
flowing through the deviation-gain computation. -/
abbrev JsNum := Option (WithBot ℚ)

/-- `Math.max` on reals extended with `-Infinity`. -/
def botMax (x y : WithBot ℚ) : WithBot ℚ :=
  match x, y with
  | none, b => b
  | some a, none => some a
  | some a, some b => some (max a b)

/-- `Math.max` with `NaN` absorption (`Math.max(NaN, x) = NaN`). -/
def jsMax (x y : JsNum) : JsNum :=
  match x, y with
  | some a, some b => some (botMax a b)
  | _, _ => none

/-- JS subtraction `x - q` where `x` may be `-Infinity` or `NaN` and `q` may be
`undefined` (then the result is `NaN`). -/
def jsSubNum (x : JsNum) (q : Option ℚ) : JsNum :=
  match x, q with
  | some a, some b =>
    some (match a with
          | none => none
          | some v => some (v - b))
  | _, _ => none

/-- JS `deviationGain > 0` (false on `NaN` and on `-Infinity`). -/
def jsGtZero (x : JsNum) : Bool :=
  match x with
  | some (some v) => decide (0 < v)
  | _ => false

/-- Subtraction of a real from a possibly `-Infinity` value
(`-Infinity - q = -Infinity`). -/
def botSub (x : WithBot ℚ) (q : ℚ) : WithBot ℚ :=
  match x with
  | none => none
  | some v => some (v - q)

/-- The strategies the last-result stability check considers as deviations:
all strategies different from the player's recorded last choice
(`player.strategies.filter(strategy => strategy !== currentStrategy)`). -/
def specAlternatives (player : Player) (last : SimulationResult) : List String :=
  player.strategies.filter fun s => ! (some s == List.lookup player.id last.playerChoices)

/-- `analyzeGameResults`, deviation-payoff for one alternative strategy: the
payoff entry under the two-player key with the opponent's last recorded choice
(a missing choice stringifies to `"undefined"`), a missing entry contributing
`-Infinity` and a present-but-short entry contributing `NaN`
(`payoffArray ? payoffArray[playerIndex] : -Infinity`). -/
def deviationPayoff (m : GameModel) (last : SimulationResult) (pidx : Nat)
    (opponent : Player) (alt : String) : JsNum :=
  match payoffEntry m
      (pairKey pidx alt ((List.lookup opponent.id last.playerChoices).getD "undefined")) with
  | none => some ⊥
  | some arr =>
    match arr.get? pidx with
    | none => none
    | some v => some (some v)

/-- `analyzeGameResults`, deviation gain of one player: the JS fold
`reduce((max, payoff) => Math.max(max, payoff), -Infinity)` over the
alternative strategies, minus the realized payoff.  Faithful for two-player
models: the opponent index here is the Nat-truncated `1 - pidx`, whereas JS
computes a negative index (hence an `undefined` opponent and `-Infinity`
alternatives) for `pidx ≥ 2`; `deviationGainOfE` below keeps the JS index. -/
def deviationGainOf (m : GameModel) (last : SimulationResult) (player : Player) : JsNum :=
  match m.players.findIdx? (fun p => p.id == player.id) with
  | none => some ⊥
  | some pidx =>
    let opponent := (m.players.get? (1 - pidx)).getD default
    let maxDev :=
      if (m.players.get? (1 - pidx)).isSome then
        ((specAlternatives player last).map
          (deviationPayoff m last pidx opponent)).foldl jsMax (some ⊥)
      else
        ((specAlternatives player last).map (fun _ => (some ⊥ : JsNum))).foldl jsMax (some ⊥)
    jsSubNum maxDev (List.lookup player.id last.payoffs)

/-- `analyzeGameResults`, stability block (lines 593-631): with no results,
stable with no recorded gains; otherwise one gain per player, and stability
fails exactly when some gain is strictly positive. -/
def stabilityAnalysisOf (m : GameModel) (results : List SimulationResult) :
    Bool × List (String × JsNum) :=
  match results.getLast? with
  | none => (true, [])
  | some last =>
    let gains := m.players.map fun player => (player.id, deviationGainOf m last player)
    (gains.all fun g => ! jsGtZero g.2, gains)

/-- `analyzeGameResults`, convergence test (lines 552-557): at least 10
results and, within the most recent 10, JS-equal (`===`, so
`undefined === undefined` holds) recorded choices for every player across
consecutive results. -/
def convergenceCheck (m : GameModel) (results : List SimulationResult) : Bool :=
  decide (10 ≤ results.length) &&
  (let recent := takeLast 10 results
   (recent.zip recent.tail).all fun pr =>
     m.players.all fun p =>
       List.lookup p.id pr.2.playerChoices == List.lookup p.id pr.1.playerChoices)

/-- `analyzeGameResults`, equilibrium-type classification (lines 558-592). -/
def equilibriumTypeOf (m : GameModel) (dominantStrategies : List (Option Nat))
    (mixedEq : Option (Option ℚ × Option ℚ)) (convergence : Bool) : String :=
  match m.type with
  | GameType.completeStatic =>
    if m.id == "prisoners-dilemma" || m.id == "smart-pig" then
      if dominantStrategies.all (fun s => s.isSome) then "纯策略占优均衡"
      else if mixedEq.isSome then "混合策略均衡"
      else if convergence then "纳什均衡"
      else "未知"
    else "未知"
  | GameType.completeDynamic =>
    if m.id == "stackelberg" then "斯塔克伯格均衡"
    else if m.id == "entry-deterrence-complete" then "完全信息市场进入阻挠均衡"
    else "未知"
  | GameType.incompleteStatic =>
    if m.id == "insurance-market" then "保险市场贝叶斯均衡" else "未知"
  | GameType.incompleteDynamic =>
    if m.id == "signaling-game" then "信号传递均衡" else "未知"
  | _ => "未知"

/-- The record returned by `analyzeGameResults`. -/
structure AnalysisResult where
  dominantStrategies : List (Option Nat)
  mixedEquilibrium : Option (Option ℚ × Option ℚ)
  convergence : Bool
  equilibriumType : String
  isStable : Bool
  deviationGains : List (String × JsNum)
deriving DecidableEq, Repr

/-- `analyzeGameResults` (`src/utils/gameTheory.ts` lines 534-640), total
form: faithful for two-player models.  The source throws a TypeError inside
the initial `dominantStrategies` map whenever some player with at least two
strategies has no opponent at JS index `1 - playerIndex` (one-player models,
or players at index 2 and beyond); `analyzeGameResultsE` below keeps that
crash as `none`, and on two-player models equals `some` of this record. -/
def analyzeGameResults (m : GameModel) (results : List SimulationResult) : AnalysisResult :=
  let dominantStrategies := m.players.map fun player => findDominantStrategy m player.id
  let mixedEquilibrium := calculateMixedEquilibrium m
  let convergence := convergenceCheck m results
  let equilibriumType := equilibriumTypeOf m dominantStrategies mixedEquilibrium convergence
  let stability := stabilityAnalysisOf m results
  ⟨dominantStrategies, mixedEquilibrium, convergence, equilibriumType,
    stability.1, stability.2⟩

/-- In the total embedding, analysis of an empty results sequence is stable
by default, with an empty deviation-gains map, and does not report
convergence (helper for the crash-aware C10 statement below). -/
theorem analyzeGameResults_empty (m : GameModel) :
    (analyzeGameResults m []).isStable = true ∧
    (analyzeGameResults m []).deviationGains = [] ∧
    (analyzeGameResults m []).convergence = false := by
  refine ⟨rfl, rfl, ?_⟩
  simp [analyzeGameResults, convergenceCheck]

/-- Consecutive-pair equality of a projection along a list is the same as the
projection being constant on the list (the semantics of the source's
`every((r, i, arr) => i === 0 || proj(r) === proj(arr[i-1]))` loops). -/
theorem chain_all_iff {α β : Type} [BEq β] [LawfulBEq β] (g : α → Option β) (l : List α) :
    ((l.zip l.tail).all fun pr => g pr.2 == g pr.1) = true ↔
      ∃ c, ∀ x ∈ l, g x = c := by
  induction l with
  | nil =>
    constructor
    · intro _
      exact ⟨none, fun x hx => absurd hx (List.not_mem_nil x)⟩
    · intro _
      rfl
  | cons a t ih =>
    cases t with
    | nil =>
      constructor
      · intro _
        refine ⟨g a, ?_⟩
        intro x hx
        rcases List.mem_singleton.mp hx with rfl
        rfl
      · intro _
        rfl
    | cons b t' =>
      simp only [List.tail_cons] at ih ⊢
      simp only [List.zip_cons_cons, List.all_cons, Bool.and_eq_true, beq_iff_eq]
      rw [ih]
      constructor
      · rintro ⟨hba, c, hc⟩
        refine ⟨c, ?_⟩
        intro x hx
        rcases List.mem_cons.mp hx with rfl | hx
        · rw [← hba]
          exact hc b (List.mem_cons_self b t')
        · exact hc x hx
      · rintro ⟨c, hc⟩
        refine ⟨?_, c, fun x hx => hc x (List.mem_cons_of_mem a hx)⟩
        rw [hc b (by simp), hc a (by simp)]

/-- In the total embedding, the analysis reports convergence exactly when at
least 10 results exist and, within the most recent 10, every player's
recorded choice is the same across all of them (helper for the crash-aware
C8 statement below). -/
theorem analyzeGameResults_convergence (m : GameModel) (results : List SimulationResult) :
    (analyzeGameResults m results).convergence = true ↔
      (10 ≤ results.length ∧
       ∀ p ∈ m.players, ∃ c : Option String,
         ∀ r ∈ takeLast 10 results, List.lookup p.id r.playerChoices = c) := by
  have h1 : (analyzeGameResults m results).convergence = convergenceCheck m results := rfl
  rw [h1]
  unfold convergenceCheck
  rw [Bool.and_eq_true, decide_eq_true_eq]
  refine and_congr_right fun _ => ?_
  rw [List.all_eq_true]
  constructor
  · intro h p hp
    exact (chain_all_iff (fun r => List.lookup p.id r.playerChoices) (takeLast 10 results)).mp
      (List.all_eq_true.mpr fun pr hpr => List.all_eq_true.mp (h pr hpr) p hp)
  · intro h pr hpr
    rw [List.all_eq_true]
    intro p hp
    exact List.all_eq_true.mp
      ((chain_all_iff (fun r => List.lookup p.id r.playerChoices) (takeLast 10 results)).mpr
        (h p hp)) pr hpr

/-- A successful association-list lookup locates a member pair. -/
theorem mem_of_lookup_eq_some {β : Type} {l : List (String × β)} {k : String} {v : β}
    (h : List.lookup k l = some v) : (k, v) ∈ l := by
  induction l with
  | nil => cases h
  | cons a t ih =>
    cases a with
    | mk k2 v2 =>
      by_cases hk : (k == k2) = true
      · have hkk : k = k2 := by simpa using hk
        rw [List.lookup, hk] at h
        obtain rfl : v2 = v := by simpa using h
        rw [hkk]
        exact List.mem_cons_self _ _
      · have hk2 : (k == k2) = false := by simpa using hk
        rw [List.lookup, hk2] at h
        exact List.mem_cons_of_mem _ (ih h)

theorem le_botMax_left (x y : WithBot ℚ) : x ≤ botMax x y := by
  cases x with
  | bot => exact bot_le
  | coe a =>
    cases y with
    | bot => exact le_refl _
    | coe b => exact WithBot.some_le_some.mpr (le_max_left a b)

theorem le_botMax_right (x y : WithBot ℚ) : y ≤ botMax x y := by
  cases y with
  | bot => exact bot_le
  | coe b =>
    cases x with
    | bot => exact le_refl _
    | coe a => exact WithBot.some_le_some.mpr (le_max_right a b)

theorem botMax_cases (x y : WithBot ℚ) : botMax x y = x ∨ botMax x y = y := by
  cases x with
  | bot => right; rfl
  | coe a =>
    cases y with
    | bot => left; rfl
    | coe b =>
      rcases max_choice a b with h | h
      · left
        show some (max a b) = some a
        rw [h]
      · right
        show some (max a b) = some b
        rw [h]

theorem le_foldl_botMax (l : List (WithBot ℚ)) (acc : WithBot ℚ) :
    acc ≤ l.foldl botMax acc := by
  induction l generalizing acc with
  | nil => exact le_refl acc
  | cons a t ih => exact le_trans (le_botMax_left acc a) (ih (botMax acc a))

theorem mem_le_foldl_botMax {l : List (WithBot ℚ)} {x : WithBot ℚ} (hx : x ∈ l)
    (acc : WithBot ℚ) : x ≤ l.foldl botMax acc := by
  induction l generalizing acc with
  | nil => cases hx
  | cons a t ih =>
    rcases List.mem_cons.mp hx with rfl | hx
    · exact le_trans (le_botMax_right acc x) (le_foldl_botMax t (botMax acc x))
    · exact ih hx (botMax acc a)

theorem foldl_botMax_eq_acc_or_mem (l : List (WithBot ℚ)) (acc : WithBot ℚ) :
    l.foldl botMax acc = acc ∨ l.foldl botMax acc ∈ l := by
  induction l generalizing acc with
  | nil => left; rfl
  | cons a t ih =>
    rw [List.foldl_cons]
    rcases ih (botMax acc a) with h | h
    · rcases botMax_cases acc a with h2 | h2
      · left; rw [h, h2]
      · right; rw [h, h2]; exact List.mem_cons_self _ _
    · right; exact List.mem_cons_of_mem a h

/-- Folding `jsMax` over genuine (non-`NaN`) values never produces `NaN`. -/
theorem foldl_jsMax_map_some (l : List (WithBot ℚ)) (acc : WithBot ℚ) :
    (l.map some).foldl jsMax (some acc) = some (l.foldl botMax acc) := by
  induction l generalizing acc with
  | nil => rfl
  | cons a t ih => exact ih (botMax acc a)

/-- The deviation payoff of claim C7: the payoff of an alternative strategy of
player `pidx`, holding the opponent's last recorded choice fixed, a missing
payoff entry counting as minus infinity. -/
def specAltValue (m : GameModel) (last : SimulationResult) (pidx : Nat)
    (opponent : Player) (alt : String) : WithBot ℚ :=
  match payoffEntry m
      (pairKey pidx alt ((List.lookup opponent.id last.playerChoices).getD "undefined")) with
  | none => ⊥
  | some arr =>
    match arr.get? pidx with
    | none => ⊥
    | some v => (v : WithBot ℚ)

/-- The best deviation payoff of claim C7: the maximum of `specAltValue` over
the player's alternative strategies (minus infinity when there are none). -/
def specMaxDev (m : GameModel) (last : SimulationResult) (pidx : Nat)
    (player opponent : Player) : WithBot ℚ :=
  ((specAlternatives player last).map (specAltValue m last pidx opponent)).foldl botMax ⊥

/-- On a model whose present payoff entries all have length at least 2, the
code's per-alternative deviation payoff never produces `NaN` and agrees with
the claim's value. -/
theorem deviationPayoff_eq_spec (m : GameModel) (last : SimulationResult) (pidx : Nat)
    (opponent : Player) (alt : String) (hpidx : pidx < 2)
    (hfull : ∀ e ∈ m.payoffMatrix, 2 ≤ e.2.length) :
    deviationPayoff m last pidx opponent alt =
      some (specAltValue m last pidx opponent alt) := by
  rcases he : payoffEntry m
      (pairKey pidx alt ((List.lookup opponent.id last.playerChoices).getD "undefined")) with
    _ | arr
  · simp [deviationPayoff, specAltValue, he]
  · have hlen : 2 ≤ arr.length := hfull _ (mem_of_lookup_eq_some he)
    obtain ⟨v, hv⟩ : ∃ v, arr.get? pidx = some v := by
      rcases h2 : arr.get? pidx with _ | v
      · rw [List.get?_eq_none] at h2
        omega
      · exact ⟨v, rfl⟩
    have hv2 : arr[pidx]? = some v := by
      simpa [List.get?_eq_getElem?] using hv
    simp only [deviationPayoff, specAltValue, he, hv, hv2]
    rfl

/-- JS `!(gain > 0)` on a genuine (non-`NaN`) gain is exactly `gain ≤ 0`. -/
theorem not_jsGtZero_iff (D : WithBot ℚ) (q : ℚ) :
    ((! jsGtZero (some (botSub D q))) = true) ↔ botSub D q ≤ (0 : WithBot ℚ) := by
  cases D with
  | bot => simp [botSub, jsGtZero]
  | coe v =>
    have hg : (! jsGtZero (some (botSub ((v : ℚ) : WithBot ℚ) q))) = ! decide (0 < v - q) := rfl
    have hsub : botSub ((v : ℚ) : WithBot ℚ) q = (((v - q : ℚ)) : WithBot ℚ) := rfl
    rw [hg, hsub, ← WithBot.coe_zero, WithBot.coe_le_coe]
    simp only [Bool.not_eq_true', decide_eq_false_iff_not, not_lt]

/-- C7: for a two-player model whose present payoff entries are full-length and
a non-empty results sequence with recorded last payoffs, `analyzeGameResults`
records, for each player, a deviation gain equal to the best deviation payoff
(the maximum of `specAltValue`, which the third through fifth conjuncts
characterize as an upper bound that is either `-∞` or attained) minus the
realized payoff, and reports stability exactly when both gains are at most
zero. -/
theorem analyzeGameResults_stability (m : GameModel) (p0 p1 : Player)
    (results : List SimulationResult) (last : SimulationResult) (q0 q1 : ℚ)
    (hps : m.players = [p0, p1]) (hneid : p0.id ≠ p1.id)
    (hlast : results.getLast? = some last)
    (hq0 : List.lookup p0.id last.payoffs = some q0)
    (hq1 : List.lookup p1.id last.payoffs = some q1)
    (hfull : ∀ e ∈ m.payoffMatrix, 2 ≤ e.2.length) :
    ((analyzeGameResults m results).deviationGains =
      [(p0.id, some (botSub (specMaxDev m last 0 p0 p1) q0)),
       (p1.id, some (botSub (specMaxDev m last 1 p1 p0) q1))]) ∧
    (∀ alt ∈ specAlternatives p0 last,
      specAltValue m last 0 p1 alt ≤ specMaxDev m last 0 p0 p1) ∧
    (∀ alt ∈ specAlternatives p1 last,
      specAltValue m last 1 p0 alt ≤ specMaxDev m last 1 p1 p0) ∧
    (specMaxDev m last 0 p0 p1 = ⊥ ∨
      specMaxDev m last 0 p0 p1 ∈ (specAlternatives p0 last).map (specAltValue m last 0 p1)) ∧
    (specMaxDev m last 1 p1 p0 = ⊥ ∨
      specMaxDev m last 1 p1 p0 ∈ (specAlternatives p1 last).map (specAltValue m last 1 p0)) ∧
    ((analyzeGameResults m results).isStable = true ↔
      (botSub (specMaxDev m last 0 p0 p1) q0 ≤ (0 : WithBot ℚ) ∧
       botSub (specMaxDev m last 1 p1 p0) q1 ≤ (0 : WithBot ℚ))) := by
  have hget0 : m.players.get? 0 = some p0 := by rw [hps]; rfl
  have hget1 : m.players.get? 1 = some p1 := by rw [hps]; rfl
  have hidx0 : m.players.findIdx? (fun p => p.id == p0.id) = some 0 := by
    rw [hps]
    simp [List.findIdx?_cons]
  have hidx1 : m.players.findIdx? (fun p => p.id == p1.id) = some 1 := by
    have hb : (p0.id == p1.id) = false := by simpa using hneid
    rw [hps]
    simp [List.findIdx?_cons, hb]
  have hdev0 : deviationGainOf m last p0 = some (botSub (specMaxDev m last 0 p0 p1) q0) := by
    unfold deviationGainOf
    rw [hidx0]
    have hmap : (specAlternatives p0 last).map (deviationPayoff m last 0 p1) =
        ((specAlternatives p0 last).map (specAltValue m last 0 p1)).map some := by
      rw [List.map_map]
      exact List.map_congr_left fun alt _ =>
        deviationPayoff_eq_spec m last 0 p1 alt (by omega) hfull
    simp only [Nat.sub_zero, hget1, Option.getD_some, Option.isSome_some, if_true]
    rw [hmap, foldl_jsMax_map_some, hq0]
    rfl
  have hdev1 : deviationGainOf m last p1 = some (botSub (specMaxDev m last 1 p1 p0) q1) := by
    unfold deviationGainOf
    rw [hidx1]
    have hmap : (specAlternatives p1 last).map (deviationPayoff m last 1 p0) =
        ((specAlternatives p1 last).map (specAltValue m last 1 p0)).map some := by
      rw [List.map_map]
      exact List.map_congr_left fun alt _ =>
        deviationPayoff_eq_spec m last 1 p0 alt (by omega) hfull
    have h11 : 1 - 1 = 0 := rfl
    simp only [h11, hget0, Option.getD_some, Option.isSome_some, if_true]
    rw [hmap, foldl_jsMax_map_some, hq1]
    rfl
  have hstab : stabilityAnalysisOf m results =
      ((! jsGtZero (some (botSub (specMaxDev m last 0 p0 p1) q0)) &&
        ! jsGtZero (some (botSub (specMaxDev m last 1 p1 p0) q1))),
       [(p0.id, some (botSub (specMaxDev m last 0 p0 p1) q0)),
        (p1.id, some (botSub (specMaxDev m last 1 p1 p0) q1))]) := by
    unfold stabilityAnalysisOf
    rw [hlast, hps]
    simp [hdev0, hdev1]
  have hgains : (analyzeGameResults m results).deviationGains =
      (stabilityAnalysisOf m results).2 := rfl
  have hisSt : (analyzeGameResults m results).isStable =
      (stabilityAnalysisOf m results).1 := rfl
  refine ⟨?_, ?_, ?_, ?_, ?_, ?_⟩
  · rw [hgains, hstab]
  · intro alt halt
    exact mem_le_foldl_botMax (List.mem_map_of_mem _ halt) ⊥
  · intro alt halt
    exact mem_le_foldl_botMax (List.mem_map_of_mem _ halt) ⊥
  · exact foldl_botMax_eq_acc_or_mem _ ⊥
  · exact foldl_botMax_eq_acc_or_mem _ ⊥
  · rw [hisSt, hstab]
    show (_ && _) = true ↔ _
    rw [Bool.and_eq_true, not_jsGtZero_iff, not_jsGtZero_iff]

/-- Witness for C7: on the prisoner's-dilemma fixture with a last round of
(抵赖, 抵赖), each player could gain 1 by deviating to 坦白, so the analysis
reports instability. -/
theorem analyzeGameResults_stability_witness :
    (analyzeGameResults pdTestModel
      [⟨0, [("1", "抵赖"), ("2", "抵赖")], [("1", -1), ("2", -1)], []⟩]).isStable = false := by
  have h := (analyzeGameResults_stability pdTestModel
      ⟨"1", "囚徒1", ["坦白", "抵赖"]⟩ ⟨"2", "囚徒2", ["坦白", "抵赖"]⟩
      [⟨0, [("1", "抵赖"), ("2", "抵赖")], [("1", -1), ("2", -1)], []⟩]
      ⟨0, [("1", "抵赖"), ("2", "抵赖")], [("1", -1), ("2", -1)], []⟩
      (-1) (-1) rfl (by decide) rfl (by with_unfolding_all decide)
      (by with_unfolding_all decide) (by decide)).2.2.2.2.2
  cases hb : (analyzeGameResults pdTestModel
      [⟨0, [("1", "抵赖"), ("2", "抵赖")], [("1", -1), ("2", -1)], []⟩]).isStable with
  | false => rfl
  | true => exact absurd (h.mp hb) (by with_unfolding_all decide)

/-- Does `pat` occur at the head of `s`? -/
def subAt : List Char → List Char → Bool
  | [], _ => true
  | _ :: _, [] => false
  | a :: as, b :: bs => a == b && subAt as bs

/-- Does `pat` occur anywhere in `s`? -/
def hasSub (pat : List Char) : List Char → Bool
  | [] => subAt pat []
  | b :: bs => subAt pat (b :: bs) || hasSub pat bs

/-- Substring containment on strings. -/
def strContains (s pat : String) : Bool := hasSub pat.data s.data

/-- The 3-round history of the test suite in which both players chose 坦白
every round, with the corresponding payoffs recorded
(`src/__tests__/simulation.test.ts`, `generateTestResults`). -/
def pdResults3 : List SimulationResult :=
  [⟨0, [("1", "坦白"), ("2", "坦白")], [("1", -8), ("2", -8)], []⟩,
   ⟨1, [("1", "坦白"), ("2", "坦白")], [("1", -8), ("2", -8)], []⟩,
   ⟨2, [("1", "坦白"), ("2", "坦白")], [("1", -8), ("2", -8)], []⟩]

/-- Counterexample to C9 as stated: on the fixture the reported equilibrium
type is the Chinese label 纯策略占优均衡, which does not contain the substring
`"dominant"`. -/
theorem analyzeGameResults_pd_label_cex :
    (analyzeGameResults pdTestModel pdResults3).equilibriumType = "纯策略占优均衡" ∧
    strContains (analyzeGameResults pdTestModel pdResults3).equilibriumType "dominant" = false := by
  constructor
  · with_unfolding_all decide
  · with_unfolding_all decide

/-- C9 (amended): on the fixture, 坦白 (index 0) is the dominant strategy of
both players, the reported equilibrium-type label contains 占优 ("dominant"),
and the 3-round all-坦白 history is reported stable. -/
theorem analyzeGameResults_pd_dominant :
    findDominantStrategy pdTestModel "1" = some 0 ∧
    findDominantStrategy pdTestModel "2" = some 0 ∧
    strContains (analyzeGameResults pdTestModel pdResults3).equilibriumType "占优" = true ∧
    (analyzeGameResults pdTestModel pdResults3).isStable = true := by
  refine ⟨?_, ?_, ?_, ?_⟩ <;> with_unfolding_all decide

/-! ## Belief updaters (`updateEntryDeterrenceBeliefs` and
`updateSignalingBeliefs`, `src/utils/gameTheory.ts` lines 843-878 and
886-921; the two exported functions have identical bodies) -/

/-- How many of the recorded results chose strategy `s` for player `pid`. -/
def countChoice (hist : List SimulationResult) (pid s : String) : Nat :=
  (hist.filter fun r => List.lookup pid r.playerChoices == some s).length

/-- The per-player body shared by both belief updaters: uniform on empty
history; otherwise smoothed frequencies over the last 5 results.  The
denominator sums the counts over the distinct strategy names (the source sums
`Object.values(counts)`, an object keyed by strategy name), while the smoothing
term counts every list entry. -/
def smoothedBeliefs (player : Player) (history : List SimulationResult) :
    List (String × ℚ) :=
  if history.isEmpty then
    player.strategies.map fun s => (s, 1 / (player.strategies.length : ℚ))
  else
    let recent := takeLast 5 history
    let total : ℚ :=
      ((player.strategies.dedup.map fun s => (countChoice recent player.id s : ℚ)).sum)
        + (1 / 10) * (player.strategies.length : ℚ)
    player.strategies.map fun s =>
      (s, ((countChoice recent player.id s : ℚ) + 1 / 10) / total)

/-- `updateEntryDeterrenceBeliefs` (`src/utils/gameTheory.ts` lines 843-878). -/
def updateEntryDeterrenceBeliefs (m : GameModel) (history : List SimulationResult) :
    List (String × List (String × ℚ)) :=
  m.players.map fun player => (player.id, smoothedBeliefs player history)

/-- `updateSignalingBeliefs` (`src/utils/gameTheory.ts` lines 886-921). -/
def updateSignalingBeliefs (m : GameModel) (history : List SimulationResult) :
    List (String × List (String × ℚ)) :=
  m.players.map fun player => (player.id, smoothedBeliefs player history)

theorem sum_map_const_rat {α : Type} (l : List α) (c : ℚ) :
    (l.map fun _ => c).sum = l.length * c := by
  induction l with
  | nil => simp
  | cons a t ih =>
    rw [List.map_cons, List.sum_cons, ih, List.length_cons]
    push_cast
    ring

theorem sum_map_div_rat {α : Type} (l : List α) (f : α → ℚ) (T : ℚ) :
    (l.map fun a => f a / T).sum = (l.map f).sum / T := by
  induction l with
  | nil => simp
  | cons a t ih =>
    rw [List.map_cons, List.sum_cons, ih, List.map_cons, List.sum_cons, add_div]

theorem sum_map_add_const_rat {α : Type} (l : List α) (f : α → ℚ) (c : ℚ) :
    (l.map fun a => f a + c).sum = (l.map f).sum + l.length * c := by
  induction l with
  | nil => simp
  | cons a t ih =>
    rw [List.map_cons, List.sum_cons, ih, List.map_cons, List.sum_cons, List.length_cons]
    push_cast
    ring

/-- C5: both belief updaters record, for every player, the uniform distribution
on an empty history and the 0.1-smoothed empirical frequencies over the most
recent 5 results otherwise, and in both cases the recorded probabilities sum
to exactly 1. -/
theorem updateBeliefs_spec (m : GameModel) (history : List SimulationResult) (player : Player)
    (hmem : player ∈ m.players) (hne : player.strategies ≠ [])
    (hnd : player.strategies.Nodup) :
    ((player.id, smoothedBeliefs player history) ∈ updateEntryDeterrenceBeliefs m history) ∧
    ((player.id, smoothedBeliefs player history) ∈ updateSignalingBeliefs m history) ∧
    (history = [] → smoothedBeliefs player history =
      player.strategies.map fun s => (s, 1 / (player.strategies.length : ℚ))) ∧
    (history ≠ [] → smoothedBeliefs player history =
      player.strategies.map fun s =>
        (s, ((countChoice (takeLast 5 history) player.id s : ℚ) + 1 / 10) /
            (((player.strategies.map fun t =>
                (countChoice (takeLast 5 history) player.id t : ℚ)).sum)
              + (1 / 10) * (player.strategies.length : ℚ)))) ∧
    ((smoothedBeliefs player history).map Prod.snd).sum = 1 := by
  have hlen : (0 : ℚ) < (player.strategies.length : ℚ) := by
    have : 0 < player.strategies.length := List.length_pos.mpr hne
    exact_mod_cast this
  have hdedup : player.strategies.dedup = player.strategies := List.dedup_eq_self.mpr hnd
  refine ⟨List.mem_map_of_mem _ hmem, List.mem_map_of_mem _ hmem, ?_, ?_, ?_⟩
  · intro h
    rw [smoothedBeliefs, if_pos (by simp [h])]
  · intro h
    rw [smoothedBeliefs, if_neg (by simpa using h), hdedup]
  · by_cases h : history = []
    · rw [smoothedBeliefs, if_pos (by simp [h])]
      simp only [List.map_map]
      show (List.map (fun _ : String => 1 / (player.strategies.length : ℚ))
        player.strategies).sum = 1
      rw [sum_map_const_rat]
      field_simp
    · rw [smoothedBeliefs, if_neg (by simpa using h), hdedup]
      simp only [List.map_map]
      show (List.map (fun s => (((countChoice (takeLast 5 history) player.id s : ℚ) + 1 / 10) /
          ((List.map (fun t => (countChoice (takeLast 5 history) player.id t : ℚ))
            player.strategies).sum
            + 1 / 10 * (player.strategies.length : ℚ)))) player.strategies).sum = 1
      rw [sum_map_div_rat player.strategies
        (fun s => ((countChoice (takeLast 5 history) player.id s : ℚ) + 1 / 10))
        ((List.map (fun t => (countChoice (takeLast 5 history) player.id t : ℚ))
            player.strategies).sum
          + 1 / 10 * (player.strategies.length : ℚ))]
      rw [sum_map_add_const_rat player.strategies
        (fun s => (countChoice (takeLast 5 history) player.id s : ℚ)) (1 / 10)]
      have hsum0 : (0 : ℚ) ≤ (player.strategies.map fun s =>
          (countChoice (takeLast 5 history) player.id s : ℚ)).sum := by
        apply List.sum_nonneg
        intro x hx
        obtain ⟨s, _, rfl⟩ := List.mem_map.mp hx
        positivity
      have hTpos : (0 : ℚ) < (List.map (fun t =>
          (countChoice (takeLast 5 history) player.id t : ℚ)) player.strategies).sum
            + 1 / 10 * (player.strategies.length : ℚ) := by
        have h2 : (0 : ℚ) < 1 / 10 * (player.strategies.length : ℚ) := by positivity
        linarith
      rw [div_eq_one_iff_eq (ne_of_gt hTpos)]
      ring

/-- Witness for C5: concrete smoothed beliefs on the 3-round fixture history
sum to 1. -/
theorem updateBeliefs_spec_witness :
    ((smoothedBeliefs ⟨"1", "囚徒1", ["坦白", "抵赖"]⟩ pdResults3).map Prod.snd).sum = 1 :=
  (updateBeliefs_spec pdTestModel pdResults3 ⟨"1", "囚徒1", ["坦白", "抵赖"]⟩
    (by decide) (by decide) (by decide)).2.2.2.2

/-! ## Best response (the utils copy, `src/utils/gameTheory.ts` lines 62-81,
and the game-store copy, `src/unnamed/part_006` lines 493-559)

The utils copy performs no error handling: a missing player makes it read
`.strategies` of `undefined` and a missing payoff entry makes it index into
`undefined`, both TypeErrors; it is therefore `Option`-valued, `none` being
the crash.  The store copy checks both and returns 0 instead. -/

/-- JS `payoffs.indexOf(Math.max(...payoffs))` over real payoffs: `-1` on an
empty list, otherwise the first index attaining the maximum. -/
def bestIdx (l : List ℚ) : Int :=
  match l.maximum with
  | none => -1
  | some mx => (l.indexOf mx : Int)

/-- The payoff values read by the utils copy of `calculateBestResponse`:
`none` if some entry is missing (the TypeError), otherwise the list of
`payoffMatrix[key][playerIndex]` values (`undefined` when the entry is
short). -/
def utilsPayoffs (m : GameModel) (pi' : Nat) (os : String) :
    List String → Option (List (Option ℚ))
  | [] => some []
  | s :: rest =>
    match payoffEntry m (pairKey pi' s os) with
    | none => none
    | some arr =>
      match utilsPayoffs m pi' os rest with
      | none => none
      | some vs => some (arr.get? pi' :: vs)

/-- `calculateBestResponse`, utils copy (`src/utils/gameTheory.ts` lines
62-81): `none` models the uncaught TypeError on a missing player or missing
payoff entry; a present-but-short entry contributes `undefined`, making
`Math.max` produce `NaN` whose `indexOf` is `-1`. -/
def calculateBestResponse (m : GameModel) (playerId : String)
    (opponentStrategy : String) : Option Int :=
  match m.players.findIdx? (fun p => p.id == playerId) with
  | none => none
  | some pi' =>
    match m.players.get? pi' with
    | none => none
    | some player =>
      match utilsPayoffs m pi' opponentStrategy player.strategies with
      | none => none
      | some vals =>
        if vals.any (fun v => v.isNone) then some (-1)
        else some (bestIdx (vals.map fun v => v.getD 0))

/-- The payoff value the game-store copy of `calculateBestResponse` reads for
one strategy index: `-Infinity`-as-`none` when the entry is missing or short. -/
def storePayoffAt (m : GameModel) (pi' : Nat) (player : Player) (os : String)
    (idx : Nat) : Option ℚ :=
  match payoffEntry m (pairKey pi' (player.strategies.getD idx "") os) with
  | none => none
  | some arr => arr.get? pi'

/-- `calculateBestResponse`, game-store copy (`src/unnamed/part_006` lines
493-559): missing player or empty strategy list return 0; a missing or short
payoff entry contributes `-Infinity`; if every payoff is `-Infinity` return 0;
otherwise pick uniformly (via the `rand` oracle) among the indices whose
payoff is within `1e-10` of the maximum. -/
def calculateBestResponseStore (m : GameModel) (playerId : String)
    (opponentStrategy : String) (rand : Nat) : Nat :=
  match m.players.findIdx? (fun p => p.id == playerId) with
  | none => 0
  | some pi' =>
    match m.players.get? pi' with
    | none => 0
    | some player =>
      if player.strategies.isEmpty then 0
      else
        let payoffs : List (Nat × Option ℚ) :=
          (List.range player.strategies.length).map fun idx =>
            (idx, storePayoffAt m pi' player opponentStrategy idx)
        if payoffs.all (fun p => p.2.isNone) then 0
        else
          let realMax := match (payoffs.filterMap fun p => p.2).maximum with
            | none => (0 : ℚ)
            | some mx => mx
          let bestResponses := payoffs.filter fun p =>
            match p.2 with
            | none => false
            | some v => jsAbs (v - realMax) < 1 / 10000000000
          ((bestResponses.get? (rand % bestResponses.length)).getD (0, none)).1

/-- A missing payoff entry for some strategy makes the utils payoff read
crash. -/
theorem utilsPayoffs_eq_none {m : GameModel} {pi' : Nat} {os : String}
    {l : List String} {s : String} (hs : s ∈ l)
    (hmiss : payoffEntry m (pairKey pi' s os) = none) :
    utilsPayoffs m pi' os l = none := by
  induction l with
  | nil => cases hs
  | cons a t ih =>
    rcases List.mem_cons.mp hs with rfl | hs2
    · rw [utilsPayoffs, hmiss]
    · rw [utilsPayoffs]
      rcases he : payoffEntry m (pairKey pi' a os) with _ | arr
      · rfl
      · rw [ih hs2]

/-- Counterexample to C2 as stated: the utils copy of `calculateBestResponse`
(the first source the claim names) does NOT return the safe default 0 on a
missing player id or a missing payoff entry — it fails unrecoverably (embedded
as `none`, the uncaught TypeError). -/
theorem calculateBestResponse_crash_cex :
    calculateBestResponse pdTestModel "zzz" "坦白" = none ∧
    calculateBestResponse pdTestModel "zzz" "坦白" ≠ some 0 ∧
    calculateBestResponse pdTestModel "1" "不存在" = none := by
  refine ⟨by decide, by decide, ?_⟩
  have h := @utilsPayoffs_eq_none pdTestModel 0 "不存在"
    ["坦白", "抵赖"] "坦白" (by decide) (by decide)
  have h1 : pdTestModel.players.findIdx? (fun p => p.id == "1") = some 0 := by decide
  have h2 : pdTestModel.players.get? 0 = some ⟨"1", "囚徒1", ["坦白", "抵赖"]⟩ := by decide
  unfold calculateBestResponse
  simp only [h1, h2, h]

/-- C2 (amended): the game-store copy of `calculateBestResponse` returns the
safe default 0 when the player id is not found and when every strategy's
payoff lookup fails (entry missing or too short), while the utils copy fails
unrecoverably (`none`) when the player id is not found or any strategy's
payoff entry is missing. -/
theorem calculateBestResponse_store_safe (m : GameModel) (playerId : String)
    (os : String) (rand : Nat) :
    (m.players.findIdx? (fun p => p.id == playerId) = none →
      calculateBestResponseStore m playerId os rand = 0 ∧
      calculateBestResponse m playerId os = none) ∧
    (∀ pi' player, m.players.findIdx? (fun p => p.id == playerId) = some pi' →
      m.players.get? pi' = some player →
      (∀ idx < player.strategies.length, storePayoffAt m pi' player os idx = none) →
      calculateBestResponseStore m playerId os rand = 0) ∧
    (∀ pi' player s, m.players.findIdx? (fun p => p.id == playerId) = some pi' →
      m.players.get? pi' = some player →
      s ∈ player.strategies → payoffEntry m (pairKey pi' s os) = none →
      calculateBestResponse m playerId os = none) := by
  refine ⟨?_, ?_, ?_⟩
  · intro h
    constructor
    · unfold calculateBestResponseStore
      rw [h]
    · unfold calculateBestResponse
      rw [h]
  · intro pi' player hfind hget hnone
    have hall : (((List.range player.strategies.length).map fun idx =>
        (idx, storePayoffAt m pi' player os idx)).all fun p => p.2.isNone) = true := by
      rw [List.all_eq_true]
      intro pr hpr
      obtain ⟨idx, hidx, rfl⟩ := List.mem_map.mp hpr
      rw [hnone idx (List.mem_range.mp hidx)]
      rfl
    unfold calculateBestResponseStore
    simp only [hfind, hget]
    by_cases hemp : player.strategies.isEmpty = true
    · simp only [hemp, if_true]
    · simp only [hemp, if_false, hall, if_true]
      simp
  · intro pi' player s hfind hget hs hmiss
    unfold calculateBestResponse
    simp only [hfind, hget, utilsPayoffs_eq_none hs hmiss]

/-- Witness for C2's amended statement: concrete safe defaults of the store
copy and the concrete crash of the utils copy. -/
theorem calculateBestResponse_store_safe_witness :
    calculateBestResponseStore pdTestModel "zzz" "坦白" 0 = 0 ∧
    calculateBestResponse pdTestModel "zzz" "坦白" = none :=
  (calculateBestResponse_store_safe pdTestModel "zzz" "坦白" 0).1 (by decide)

/-! ## Simulation controller (`startSimulation`'s interval callback,
`src/unnamed/part_006` lines 61-153)

One interval callback invocation is a `tick`.  The `SimulationResult`
computed by `simulateStep` on the append path is passed in as an explicit
parameter (`newResult`), since its content — produced by the separately
embedded strategy-selection pipeline and the random oracle — never matters
for the controller-level claims. -/

/-- The store's simulation state. -/
structure SimState where
  isRunning : Bool
  results : List SimulationResult
  currentStep : Nat
deriving DecidableEq, Repr

/-- One consecutive-pair step of the 5-round choice-stability test: every
player's choice in both results is present, truthy (non-empty) and equal
(`currentChoice && prevChoice && currentChoice === prevChoice`). -/
def choicesStableStep (players : List Player) (prev cur : SimulationResult) : Bool :=
  players.all fun p =>
    match List.lookup p.id cur.playerChoices, List.lookup p.id prev.playerChoices with
    | some c, some c2 => c != "" && c2 != "" && c == c2
    | _, _ => false

/-- The 5-round choice-stability test over the most recent 5 results. -/
def stableLast5 (m : GameModel) (results : List SimulationResult) : Bool :=
  let recent := takeLast 5 results
  (recent.zip recent.tail).all fun pr => choicesStableStep m.players pr.1 pr.2

/-- The hypothetical-choices key for one deviation in the tick's Nash test:
all players' last recorded choices joined by commas, with the deviating
player's replaced by `alt` (a missing choice stringifies to the empty string
under `Array.prototype.join`). -/
def nashKey (m : GameModel) (last : SimulationResult) (player : Player) (alt : String) : String :=
  String.intercalate "," (m.players.map fun p =>
    if p.id == player.id then alt else (List.lookup p.id last.playerChoices).getD "")

/-- The tick's Nash test at the last result: every player has a truthy
recorded choice and a recorded payoff, and no alternative strategy with a
defined payoff (at the player's position, `players.indexOf(player)`) strictly
exceeds the realized payoff. -/
def nashAtLast (m : GameModel) (last : SimulationResult) : Bool :=
  m.players.enum.all fun pr =>
    match List.lookup pr.2.id last.playerChoices, List.lookup pr.2.id last.payoffs with
    | some cs, some cp =>
      cs != "" &&
      pr.2.strategies.all fun alt =>
        alt == cs ||
        (match (payoffEntry m (nashKey m last pr.2 alt)).bind (fun arr => arr.get? pr.1) with
         | none => true
         | some ap => decide (ap ≤ cp))
    | _, _ => false

/-- One tick of the simulation interval (`src/unnamed/part_006` lines
61-153), for a running state with the model found: stop when the recommended
maximum round count is reached; stop when at least 5 results exist, the last
5 are choice-stable and the last result passes the Nash test; otherwise
append the newly simulated result and advance the step counter. -/
def tick (m : GameModel) (newResult : SimulationResult) (s : SimState) : SimState :=
  if ! s.isRunning then s
  else if (match m.recommendedRounds with
           | some rr => decide (rr.2 ≤ s.currentStep)
           | none => false) then
    { s with isRunning := false }
  else if decide (5 ≤ s.results.length) && stableLast5 m s.results &&
      (match s.results.getLast? with
       | none => false
       | some last => nashAtLast m last) then
    { s with isRunning := false }
  else
    { s with results := s.results ++ [newResult], currentStep := s.currentStep + 1 }

/-- The stability condition of claim C6: every player's recorded choice is
identical across the most recent 5 results. -/
def specStable5 (m : GameModel) (results : List SimulationResult) : Prop :=
  ∀ p ∈ m.players, ∃ c : Option String,
    ∀ r ∈ takeLast 5 results, List.lookup p.id r.playerChoices = c

/-- The Nash condition of claim C6: no player has an alternative strategy
(different from its recorded last choice, the others' choices held fixed)
whose defined payoff strictly exceeds the realized one. -/
def specNashAtLast (m : GameModel) (last : SimulationResult) : Prop :=
  ∀ pr ∈ m.players.enum, ∀ alt ∈ pr.2.strategies,
    some alt ≠ List.lookup pr.2.id last.playerChoices →
    ∀ cp ap : ℚ, List.lookup pr.2.id last.payoffs = some cp →
      (payoffEntry m (nashKey m last pr.2 alt)).bind (fun arr => arr.get? pr.1) = some ap →
      ap ≤ cp

/-- A member of `l.enum` carries a member of `l`. -/
theorem snd_mem_of_mem_enum {α : Type} {l : List α} {idx : Nat} {a : α}
    (h : (idx, a) ∈ l.enum) : a ∈ l := by
  obtain ⟨hlt, heq⟩ := List.mem_enum h
  rw [heq]
  exact List.getElem_mem hlt

/-- On histories whose recent choices are present and non-empty, the tick's
5-round stability test is exactly the claim's condition: every player's
recorded choice identical across the most recent 5 results. -/
theorem stableLast5_iff (m : GameModel) (results : List SimulationResult)
    (hwf : ∀ r ∈ takeLast 5 results, ∀ p ∈ m.players,
      ∃ c, List.lookup p.id r.playerChoices = some c ∧ c ≠ "") :
    stableLast5 m results = true ↔ specStable5 m results := by
  unfold stableLast5 specStable5
  constructor
  · intro h p hp
    apply (chain_all_iff (fun r => List.lookup p.id r.playerChoices) (takeLast 5 results)).mp
    rw [List.all_eq_true] at h ⊢
    intro pr hpr
    have h1 := h pr hpr
    rw [choicesStableStep, List.all_eq_true] at h1
    have h2 := h1 p hp
    obtain ⟨hprev, hcurt⟩ := List.of_mem_zip (show (pr.1, pr.2) ∈ _ from hpr)
    have hcur : pr.2 ∈ takeLast 5 results := List.mem_of_mem_tail hcurt
    obtain ⟨c, hc, hcne⟩ := hwf pr.2 hcur p hp
    obtain ⟨c2, hc2, hc2ne⟩ := hwf pr.1 hprev p hp
    simp only [hc, hc2] at h2 ⊢
    simp only [Bool.and_eq_true] at h2
    simpa using h2.2
  · intro h
    rw [List.all_eq_true]
    intro pr hpr
    rw [choicesStableStep, List.all_eq_true]
    intro p hp
    obtain ⟨c, hcall⟩ := h p hp
    obtain ⟨hprev, hcurt⟩ := List.of_mem_zip (show (pr.1, pr.2) ∈ _ from hpr)
    have hcur : pr.2 ∈ takeLast 5 results := List.mem_of_mem_tail hcurt
    obtain ⟨c2, hc2, hc2ne⟩ := hwf pr.2 hcur p hp
    have hceq : c = some c2 := by rw [← hcall pr.2 hcur, hc2]
    have h1 : List.lookup p.id pr.1.playerChoices = some c2 := by
      rw [hcall pr.1 hprev, hceq]
    simp only [hc2, h1]
    simp [hc2ne]

/-- On a last result whose choices are present and non-empty and whose
payoffs are recorded, the tick's Nash test is exactly the claim's condition:
no player has an alternative strategy with a defined payoff strictly above
the realized one. -/
theorem nashAtLast_iff (m : GameModel) (last : SimulationResult)
    (hwfc : ∀ p ∈ m.players, ∃ c, List.lookup p.id last.playerChoices = some c ∧ c ≠ "")
    (hwfp : ∀ p ∈ m.players, ∃ q, List.lookup p.id last.payoffs = some q) :
    nashAtLast m last = true ↔ specNashAtLast m last := by
  unfold nashAtLast specNashAtLast
  constructor
  · intro h pr hpr alt halt hne cp ap hcp hap
    obtain ⟨idx, p⟩ := pr
    have hmem : p ∈ m.players := snd_mem_of_mem_enum hpr
    have h1 := List.all_eq_true.mp h (idx, p) hpr
    obtain ⟨c, hc, hcne⟩ := hwfc p hmem
    simp only [hc, hcp] at h1
    rw [Bool.and_eq_true] at h1
    have h2 := List.all_eq_true.mp h1.2 alt halt
    rw [Bool.or_eq_true] at h2
    rcases h2 with h2 | h2
    · have : alt = c := by simpa using h2
      exact absurd (by rw [this, hc]) hne
    · simp only [hap] at h2
      simpa using h2
  · intro h
    rw [List.all_eq_true]
    intro pr hpr
    obtain ⟨idx, p⟩ := pr
    have hmem : p ∈ m.players := snd_mem_of_mem_enum hpr
    obtain ⟨c, hc, hcne⟩ := hwfc p hmem
    obtain ⟨q, hq⟩ := hwfp p hmem
    simp only [hc, hq]
    rw [Bool.and_eq_true]
    refine ⟨by simpa using hcne, ?_⟩
    rw [List.all_eq_true]
    intro alt halt
    rw [Bool.or_eq_true]
    by_cases hac : (alt == c) = true
    · exact Or.inl hac
    · right
      rcases hb : (payoffEntry m (nashKey m last (idx, p).2 alt)).bind
          (fun arr => arr.get? (idx, p).1) with _ | ap
      · simp only [hb]
      · simp only [hb]
        have hne : some alt ≠ List.lookup p.id last.playerChoices := by
          rw [hc]
          intro hcon
          exact hac (by simpa using Option.some.inj hcon)
        exact decide_eq_true (h (idx, p) hpr alt halt hne q ap hq hb)

/-- C6: while Running, a tick on which `currentStep` has reached
`recommendedRounds.max` stops and appends nothing; a tick on which at least 5
results exist, every player's choice is identical across the most recent 5
results and the last result passes the no-better-deviation test stops and
appends nothing; any other Running tick appends exactly one result and
increments `currentStep` by exactly 1; hence (with `results.length =
currentStep`, the controller's invariant) the results sequence never grows
past `recommendedRounds.max`.  Histories are assumed well-formed: recent
recorded choices are present and non-empty and the last result's payoffs are
recorded. -/
theorem tick_spec (m : GameModel) (newResult : SimulationResult) (s : SimState)
    (hrun : s.isRunning = true)
    (hwf : ∀ r ∈ takeLast 5 s.results, ∀ p ∈ m.players,
      ∃ c, List.lookup p.id r.playerChoices = some c ∧ c ≠ "")
    (hwflast : ∀ last, s.results.getLast? = some last → ∀ p ∈ m.players,
      ∃ c, List.lookup p.id last.playerChoices = some c ∧ c ≠ "")
    (hwfpay : ∀ last, s.results.getLast? = some last → ∀ p ∈ m.players,
      ∃ q, List.lookup p.id last.payoffs = some q) :
    (∀ rr, m.recommendedRounds = some rr → rr.2 ≤ s.currentStep →
      tick m newResult s = { s with isRunning := false }) ∧
    ((m.recommendedRounds = none ∨
        ∃ rr, m.recommendedRounds = some rr ∧ s.currentStep < rr.2) →
      5 ≤ s.results.length → specStable5 m s.results →
      (∀ last, s.results.getLast? = some last → specNashAtLast m last) →
      tick m newResult s = { s with isRunning := false }) ∧
    ((m.recommendedRounds = none ∨
        ∃ rr, m.recommendedRounds = some rr ∧ s.currentStep < rr.2) →
      ¬ (5 ≤ s.results.length ∧ specStable5 m s.results ∧
          (∀ last, s.results.getLast? = some last → specNashAtLast m last)) →
      tick m newResult s =
        { s with results := s.results ++ [newResult],
                 currentStep := s.currentStep + 1 }) ∧
    (∀ rr, m.recommendedRounds = some rr → s.results.length = s.currentStep →
      s.results.length ≤ rr.2 → (tick m newResult s).results.length ≤ rr.2) := by
  have hnr : (! s.isRunning) = false := by rw [hrun]; rfl
  have hmaxFalse : ∀ rr, m.recommendedRounds = some rr → s.currentStep < rr.2 →
      (match m.recommendedRounds with
       | some rr => decide (rr.2 ≤ s.currentStep)
       | none => false) = false := by
    intro rr hrr hlt
    rw [hrr]
    exact decide_eq_false (by omega)
  have hmaxFalseNone : m.recommendedRounds = none →
      (match m.recommendedRounds with
       | some rr => decide (rr.2 ≤ s.currentStep)
       | none => false) = false := by
    intro hrr
    rw [hrr]
  refine ⟨?_, ?_, ?_, ?_⟩
  · intro rr hrr hle
    unfold tick
    rw [hnr, if_neg (by simp), hrr]
    rw [if_pos (by simpa using hle)]
  · intro hmax h5 hstable hnash
    obtain ⟨last, hlast⟩ : ∃ last, s.results.getLast? = some last := by
      have hne : s.results ≠ [] := by
        intro hcon
        rw [hcon] at h5
        simp at h5
      obtain ⟨last, hl⟩ := Option.isSome_iff_exists.mp (List.getLast?_isSome.mpr hne)
      exact ⟨last, hl⟩
    have hguard : (decide (5 ≤ s.results.length) && stableLast5 m s.results &&
        (match s.results.getLast? with
         | none => false
         | some last => nashAtLast m last)) = true := by
      rw [hlast]
      rw [Bool.and_eq_true, Bool.and_eq_true]
      exact ⟨⟨decide_eq_true h5, (stableLast5_iff m s.results hwf).mpr hstable⟩,
        (nashAtLast_iff m last (hwflast last hlast) (hwfpay last hlast)).mpr (hnash last hlast)⟩
    have hmaxF : (match m.recommendedRounds with
        | some rr => decide (rr.2 ≤ s.currentStep)
        | none => false) = false := by
      rcases hmax with h | ⟨rr, hrr, hlt⟩
      · exact hmaxFalseNone h
      · exact hmaxFalse rr hrr hlt
    unfold tick
    rw [hnr, if_neg (by simp), hmaxF, if_neg (by simp), if_pos hguard]
  · intro hmax hnot
    have hmaxF : (match m.recommendedRounds with
        | some rr => decide (rr.2 ≤ s.currentStep)
        | none => false) = false := by
      rcases hmax with h | ⟨rr, hrr, hlt⟩
      · exact hmaxFalseNone h
      · exact hmaxFalse rr hrr hlt
    have hguard : (decide (5 ≤ s.results.length) && stableLast5 m s.results &&
        (match s.results.getLast? with
         | none => false
         | some last => nashAtLast m last)) = false := by
      by_cases h5 : 5 ≤ s.results.length
      · by_cases hstab : specStable5 m s.results
        · obtain ⟨last, hlast⟩ : ∃ last, s.results.getLast? = some last := by
            have hne : s.results ≠ [] := by
              intro hcon
              rw [hcon] at h5
              simp at h5
            obtain ⟨last, hl⟩ := Option.isSome_iff_exists.mp (List.getLast?_isSome.mpr hne)
            exact ⟨last, hl⟩
          have hnashF : nashAtLast m last = false := by
            cases hb : nashAtLast m last with
            | false => rfl
            | true =>
              exfalso
              apply hnot
              refine ⟨h5, hstab, ?_⟩
              intro last2 hlast2
              rw [hlast] at hlast2
              obtain rfl : last = last2 := Option.some.inj hlast2
              exact (nashAtLast_iff m last (hwflast last hlast) (hwfpay last hlast)).mp hb
          simp only [hlast, hnashF]
          simp
        · have hstabF : stableLast5 m s.results = false := by
            cases hb : stableLast5 m s.results with
            | false => rfl
            | true => exact absurd ((stableLast5_iff m s.results hwf).mp hb) hstab
          rw [hstabF]
          simp
      · rw [decide_eq_false h5]
        simp
    unfold tick
    rw [hnr, if_neg (by simp), hmaxF, if_neg (by simp), hguard, if_neg (by simp)]
  · intro rr hrr hinv hle
    by_cases hstep : rr.2 ≤ s.currentStep
    · have h1 : tick m newResult s = { s with isRunning := false } := by
        unfold tick
        rw [hnr, if_neg (by simp), hrr, if_pos (by simpa using hstep)]
      rw [h1]
      exact hle
    · have hmaxF : (match m.recommendedRounds with
          | some rr => decide (rr.2 ≤ s.currentStep)
          | none => false) = false := hmaxFalse rr hrr (by omega)
      unfold tick
      rw [hnr, if_neg (by simp), hmaxF, if_neg (by simp)]
      by_cases hguard : (decide (5 ≤ s.results.length) && stableLast5 m s.results &&
          (match s.results.getLast? with
           | none => false
           | some last => nashAtLast m last)) = true
      · rw [if_pos hguard]
        exact hle
      · rw [if_neg hguard]
        simp only [List.length_append, List.length_cons, List.length_nil]
        omega

/-- Witness for C6: from the initial Running state with no results, a tick
appends exactly the new result and advances the step counter. -/
theorem tick_spec_witness :
    tick pdTestModel ⟨0, [("1", "坦白"), ("2", "坦白")], [("1", -8), ("2", -8)], []⟩
        ⟨true, [], 0⟩ =
      ⟨true, [⟨0, [("1", "坦白"), ("2", "坦白")], [("1", -8), ("2", -8)], []⟩], 1⟩ :=
  (tick_spec pdTestModel ⟨0, [("1", "坦白"), ("2", "坦白")], [("1", -8), ("2", -8)], []⟩
      ⟨true, [], 0⟩ rfl (by simp [takeLast]) (by simp) (by simp)).2.2.1
    (Or.inl rfl) (fun hcon => by simp at hcon)

/-! ## Strategy selection (`calculateStrategyChoice` and its helpers,
`src/utils/gameTheory.ts` lines 363-459, 467-492, 494-526, 803-835,
931-947, 957-973) -/

/-- JS `Array.prototype.indexOf` on strategy names: `-1` when absent. -/
def jsIndexOfStr (l : List String) (s : String) : Int :=
  match l.findIdx? (fun t => t == s) with
  | some i => (i : Int)
  | none => -1

/-- The uniform random draw `strategies[Math.floor(Math.random() * n)]`,
driven by the `rand` oracle. -/
def randChoice (l : List String) (rand : Nat) : String :=
  l.getD (rand % l.length) ""

/-- `calculateSignalingStrategy` (`src/utils/gameTheory.ts` lines 931-947):
the sender's hard-coded education-investment lookup; `none` is the TypeError
when player 0 is missing.  The unused `step` parameter mirrors the source
signature. -/
def calculateSignalingStrategy (m : GameModel) (senderType : String) (step : Nat) :
    Option Int :=
  match m.players.get? 0 with
  | none => none
  | some sender =>
    if senderType == "high" then some (jsIndexOfStr sender.strategies "高教育投资")
    else some (jsIndexOfStr sender.strategies "低教育投资")

/-- `calculateReceiverResponse` (`src/utils/gameTheory.ts` lines 957-973):
the receiver's hard-coded wage lookup keyed on the observed signal. -/
def calculateReceiverResponse (m : GameModel) (signal : String) (step : Nat) :
    Option Int :=
  match m.players.get? 1 with
  | none => none
  | some receiver =>
    if signal == "高教育投资" then some (jsIndexOfStr receiver.strategies "高薪聘用")
    else some (jsIndexOfStr receiver.strategies "低薪聘用")

/-- `calculateFollowerResponse` (`src/utils/gameTheory.ts` lines 467-492):
the follower's reaction quantity `q2 = max(0, (100 - 20 - q1) / 2)` and the
reduce-to-closest scan over the follower's parsed strategy quantities; `none`
is the TypeError/empty-reduce crash when player 1 is missing or has no
strategies. -/
def calculateFollowerResponse (parse : String → ℚ) (m : GameModel)
    (leaderQuantity : String) : Option Nat :=
  match m.players.get? 1 with
  | none => none
  | some follower =>
    match follower.strategies with
    | [] => none
    | s0 :: srest =>
      let q2 := max 0 ((100 - 20 - parse leaderQuantity) / 2)
      let closest := (srest.map parse).foldl
        (fun prev curr => if jsAbs (curr - q2) < jsAbs (prev - q2) then curr else prev)
        (parse s0)
      some (((s0 :: srest).map parse).indexOf closest)

/-- The leader's anticipated payoffs in the Stackelberg branch of
`calculateStrategyChoice` (lines 395-399): for each leader strategy, the
payoff entry at the key joining it with the follower's best response; `none`
is the TypeError on a crashing follower computation or a missing entry, and a
short entry leaves an `undefined` value. -/
def payoffsForLeader (parse : String → ℚ) (m : GameModel) (pi' : Nat)
    (opponent : Player) : List String → Option (List (Option ℚ))
  | [] => some []
  | s :: rest =>
    match calculateFollowerResponse parse m s with
    | none => none
    | some fidx =>
      match payoffEntry m (s ++ "," ++ opponent.strategies.getD fidx "") with
      | none => none
      | some arr =>
        match payoffsForLeader parse m pi' opponent rest with
        | none => none
        | some vs => some (arr.get? pi' :: vs)

/-- The module-private `updateBeliefs` (`src/utils/gameTheory.ts` lines
494-526): plain empirical frequencies over the whole history, uniform when
empty (no smoothing, no recency window). -/
def updateBeliefsFull (m : GameModel) (history : List SimulationResult) :
    List (String × List (String × ℚ)) :=
  m.players.map fun player =>
    (player.id,
      if history.length == 0 then
        player.strategies.map fun s => (s, 1 / (player.strategies.length : ℚ))
      else
        player.strategies.map fun s =>
          (s, (countChoice history player.id s : ℚ) / (history.length : ℚ)))

/-- `calculateEntryDeterrenceStrategy` (`src/utils/gameTheory.ts` lines
803-835): expected payoffs under the belief distribution (defaulting to the
uniform probability when a belief is missing, and to payoff 0 when an entry
or value is missing), maximized via `indexOf(Math.max(...))`; `none` is the
TypeError when the opponent is missing. -/
def calculateEntryDeterrenceStrategy (m : GameModel) (playerId : String)
    (beliefs : List (String × List (String × ℚ))) : Option Int :=
  match m.players.findIdx? (fun p => p.id == playerId) with
  | none => some 0
  | some pi' =>
    match m.players.get? pi', m.players.get? (1 - pi') with
    | some player, some opponent =>
      let expectedPayoffs := player.strategies.map fun strategy =>
        (opponent.strategies.map fun os =>
          let probability :=
            match (List.lookup opponent.id beliefs).bind (fun b => List.lookup os b) with
            | some pr => pr
            | none => 1 / (opponent.strategies.length : ℚ)
          let payoff :=
            ((payoffEntry m (pairKey pi' strategy os)).bind (fun arr => arr.get? pi')).getD 0
          probability * payoff).sum
      some (bestIdx expectedPayoffs)
    | _, _ => none

/-- `calculateStrategyChoice` (`src/utils/gameTheory.ts` lines 363-459): the
strategy-selection entry point, switching on the model type and id.  `none`
embeds the uncaught TypeErrors of the source; `parse` abstracts `parseFloat`
and `rand` the random draw. -/
def calculateStrategyChoice (parse : String → ℚ) (m : GameModel) (playerId : String)
    (step : Nat) (results : List SimulationResult) (rand : Nat) : Option Int :=
  match m.players.findIdx? (fun p => p.id == playerId) with
  | none => some 0
  | some pi' =>
    let player := (m.players.get? pi').getD default
    match m.type with
    | GameType.completeStatic =>
      if m.id == "prisoners-dilemma" || m.id == "smart-pig" then
        match findDominantStrategy m playerId with
        | some d => some (d : Int)
        | none =>
          match m.players.get? (1 - pi') with
          | none => none
          | some opponent =>
            let opponentLastStrategy :=
              match results.getLast? with
              | some r => (List.lookup opponent.id r.playerChoices).getD "undefined"
              | none => randChoice opponent.strategies rand
            calculateBestResponse m playerId opponentLastStrategy
      else some 0
    | GameType.completeDynamic =>
      if m.id == "stackelberg" then
        if pi' == 0 then
          match m.players.get? (1 - pi') with
          | none => none
          | some opponent =>
            match payoffsForLeader parse m pi' opponent player.strategies with
            | none => none
            | some vals =>
              if vals.any (fun v => v.isNone) then some (-1)
              else some (bestIdx (vals.map fun v => v.getD 0))
        else
          match results.getLast? with
          | some r =>
            let leader := (m.players.get? 0).getD default
            let leaderChoice := (List.lookup leader.id r.playerChoices).getD "undefined"
            match calculateFollowerResponse parse m leaderChoice with
            | none => none
            | some i => some (i : Int)
          | none => some 0
      else if m.id == "entry-deterrence-complete" then
        if playerId == "1" then some 0
        else
          match results.getLast? >>= fun r => List.lookup "1" r.playerChoices with
          | some c => if c == "投资" then some 1 else some 0
          | none => some 0
      else some 0
    | GameType.incompleteStatic =>
      if m.id == "insurance-market" then
        calculateEntryDeterrenceStrategy m playerId (updateBeliefsFull m results)
      else some 0
    | GameType.incompleteDynamic =>
      if m.id == "signaling-game" then
        if playerId == "1" then
          let senderType :=
            match results.getLast? >>= fun r => List.lookup "senderType" r.signals with
            | some s => if s == "" then "low" else s
            | none => "low"
          calculateSignalingStrategy m senderType step
        else
          let signal :=
            match results.getLast? >>= fun r => List.lookup "1" r.playerChoices with
            | some s => s
            | none => ""
          calculateReceiverResponse m signal step
      else some 0
    | _ => some 0

/-- A signaling-game model whose strategy names are not the hard-coded
education-investment strings. -/
def cexSignalModel : GameModel :=
  { id := "signaling-game"
    type := GameType.incompleteDynamic
    players := [⟨"1", "S", ["a", "b"]⟩, ⟨"2", "R", ["c", "d"]⟩]
    payoffMatrix := [] }

/-- Counterexample to C1 as stated: on a signaling-game model whose sender
strategies do not contain 低教育投资, the signaling branch returns the JS
`indexOf` miss value `-1`, which is not in `[0, strategies.length)`. -/
theorem calculateStrategyChoice_cex :
    calculateStrategyChoice (fun _ => 0) cexSignalModel "1" 0 [] 0 = some (-1) ∧
    ((-1 : Int) < 0) := by
  exact ⟨by decide, by decide⟩

theorem findIdx?_some_lt {α : Type} {p : α → Bool} :
    ∀ {l : List α} {i j : Nat}, List.findIdx? p l i = some j → j < i + l.length := by
  intro l
  induction l with
  | nil =>
    intro i j h
    simp [List.findIdx?] at h
  | cons a t ih =>
    intro i j h
    rw [List.findIdx?_cons] at h
    by_cases hp : p a = true
    · rw [if_pos hp] at h
      obtain rfl : i = j := Option.some.inj h
      simp
    · rw [if_neg hp] at h
      have := ih h
      simp only [List.length_cons]
      omega

theorem findIdx?_of_mem {α : Type} {p : α → Bool} {l : List α} {x : α}
    (hx : x ∈ l) (hp : p x = true) :
    ∃ j, List.findIdx? p l = some j ∧ j < l.length := by
  rcases h : List.findIdx? p l with _ | j
  · rw [List.findIdx?_eq_none_iff] at h
    rw [h x hx] at hp
    cases hp
  · refine ⟨j, rfl, ?_⟩
    have := findIdx?_some_lt h
    omega

theorem jsIndexOfStr_range {l : List String} {s : String} (h : s ∈ l) :
    0 ≤ jsIndexOfStr l s ∧ jsIndexOfStr l s < l.length := by
  obtain ⟨j, hj, hjl⟩ := findIdx?_of_mem (p := fun t => t == s) h (by simp)
  unfold jsIndexOfStr
  simp only [hj]
  constructor
  · exact Int.ofNat_nonneg j
  · exact_mod_cast hjl

theorem bestIdx_range {l : List ℚ} (h : l ≠ []) :
    0 ≤ bestIdx l ∧ bestIdx l < l.length := by
  rcases hm : l.maximum with _ | mx
  · exact absurd (List.maximum_eq_none.mp hm) h
  · unfold bestIdx
    simp only [hm]
    constructor
    · exact Int.ofNat_nonneg _
    · exact_mod_cast List.indexOf_lt_length.mpr (List.maximum_mem hm)

theorem randChoice_mem {l : List String} (h : l ≠ []) (rand : Nat) :
    randChoice l rand ∈ l := by
  have hlen : 0 < l.length := List.length_pos.mpr h
  have hlt : rand % l.length < l.length := Nat.mod_lt rand hlen
  unfold randChoice
  rw [List.getD_eq_getElem l "" hlt]
  exact List.getElem_mem hlt

theorem foldl_choice_mem {g : ℚ → ℚ → ℚ} (hg : ∀ p c, g p c = p ∨ g p c = c) :
    ∀ (l : List ℚ) (a : ℚ), l.foldl g a ∈ a :: l := by
  intro l
  induction l with
  | nil =>
    intro a
    simp
  | cons b t ih =>
    intro a
    rw [List.foldl_cons]
    have := ih (g a b)
    rcases List.mem_cons.mp this with heq | hmem
    · rcases hg a b with h2 | h2
      · rw [heq, h2]
        exact List.mem_cons_self _ _
      · rw [heq, h2]
        exact List.mem_cons_of_mem _ (List.mem_cons_self _ _)
    · exact List.mem_cons_of_mem _ (List.mem_cons_of_mem _ hmem)

theorem calculateFollowerResponse_range (parse : String → ℚ) (m : GameModel)
    (q : String) {p1 : Player} (hget1 : m.players.get? 1 = some p1)
    (hne : p1.strategies ≠ []) :
    ∃ i, calculateFollowerResponse parse m q = some i ∧ i < p1.strategies.length := by
  obtain ⟨s0, srest, hs⟩ : ∃ s0 srest, p1.strategies = s0 :: srest := by
    rcases hs0 : p1.strategies with _ | ⟨a, b⟩
    · exact absurd hs0 hne
    · exact ⟨a, b, rfl⟩
  unfold calculateFollowerResponse
  rw [hget1]
  simp only [hs]
  set q2 := max 0 ((100 - 20 - parse q) / 2) with hq2
  set closest := (srest.map parse).foldl
    (fun prev curr => if jsAbs (curr - q2) < jsAbs (prev - q2) then curr else prev)
    (parse s0) with hclosest
  have hmem : closest ∈ parse s0 :: srest.map parse := by
    rw [hclosest]
    exact foldl_choice_mem (fun p c => by
      by_cases hcmp : jsAbs (c - q2) < jsAbs (p - q2)
      · exact Or.inr (if_pos hcmp)
      · exact Or.inl (if_neg hcmp)) (srest.map parse) (parse s0)
  have hmem2 : closest ∈ (s0 :: srest).map parse := by
    simpa using hmem
  refine ⟨((s0 :: srest).map parse).indexOf closest, rfl, ?_⟩
  have := List.indexOf_lt_length.mpr hmem2
  simp only [hs, List.length_cons]
  simpa using this

/-- Under the full-matrix invariant the utils payoff read succeeds with one
real value per strategy. -/
theorem utilsPayoffs_full (m : GameModel) (pi' : Nat) (os : String) (hpi : pi' < 2) :
    ∀ (l : List String),
    (∀ s ∈ l, ∃ arr, payoffEntry m (pairKey pi' s os) = some arr ∧ 2 ≤ arr.length) →
    ∃ vals, utilsPayoffs m pi' os l = some vals ∧ vals.length = l.length ∧
      ∀ v ∈ vals, v.isSome = true := by
  intro l
  induction l with
  | nil =>
    intro _
    exact ⟨[], rfl, rfl, fun v hv => absurd hv (List.not_mem_nil v)⟩
  | cons s rest ih =>
    intro h
    obtain ⟨arr, harr, hlen⟩ := h s (List.mem_cons_self s rest)
    obtain ⟨vals, hvals, hvlen, hvsome⟩ := ih fun t ht => h t (List.mem_cons_of_mem s ht)
    obtain ⟨v, hv⟩ : ∃ v, arr.get? pi' = some v := by
      rcases h2 : arr.get? pi' with _ | v
      · rw [List.get?_eq_none] at h2
        omega
      · exact ⟨v, rfl⟩
    refine ⟨some v :: vals, ?_, by simp [hvlen], ?_⟩
    · simp only [utilsPayoffs, harr, hvals, hv]
    · intro w hw
      rcases List.mem_cons.mp hw with rfl | hw2
      · rfl
      · exact hvsome w hw2

/-- Under the full-matrix invariant and a valid opponent strategy, the utils
`calculateBestResponse` returns a valid index. -/
theorem calculateBestResponse_range (m : GameModel) (playerId os : String)
    {pi' : Nat} {player : Player}
    (hfind : m.players.findIdx? (fun p => p.id == playerId) = some pi')
    (hget : m.players.get? pi' = some player) (hpi : pi' < 2)
    (hne : player.strategies ≠ [])
    (hmx : ∀ s ∈ player.strategies,
      ∃ arr, payoffEntry m (pairKey pi' s os) = some arr ∧ 2 ≤ arr.length) :
    ∃ i, calculateBestResponse m playerId os = some i ∧ 0 ≤ i ∧
      i < player.strategies.length := by
  obtain ⟨vals, hvals, hvlen, hvsome⟩ := utilsPayoffs_full m pi' os hpi player.strategies hmx
  have hanyF : (vals.any fun v => v.isNone) = false := by
    rw [Bool.eq_false_iff]
    intro hcon
    rw [List.any_eq_true] at hcon
    obtain ⟨v, hv, hvn⟩ := hcon
    rw [Option.isNone_iff_eq_none] at hvn
    have := hvsome v hv
    rw [hvn] at this
    cases this
  have hmaplen : (vals.map fun v => v.getD 0).length = player.strategies.length := by
    rw [List.length_map, hvlen]
  have hmapne : (vals.map fun v => v.getD 0) ≠ [] := by
    intro hcon
    have := congrArg List.length hcon
    rw [hmaplen] at this
    exact hne (List.length_eq_zero.mp this)
  obtain ⟨h0, hlt⟩ := bestIdx_range hmapne
  refine ⟨bestIdx (vals.map fun v => v.getD 0), ?_, h0, by rwa [hmaplen] at hlt⟩
  unfold calculateBestResponse
  simp only [hfind, hget, hvals, hanyF]
  simp

/-- Under the full-matrix invariant the Stackelberg leader's anticipated
payoffs all exist. -/
theorem payoffsForLeader_full (parse : String → ℚ) (m : GameModel) {p1 : Player}
    (hget1 : m.players.get? 1 = some p1) (hne1 : p1.strategies ≠ [])
    (hmx : ∀ s0 ∈ (m.players.get? 0).getD default |>.strategies, ∀ s1 ∈ p1.strategies,
      ∃ arr, payoffEntry m (s0 ++ "," ++ s1) = some arr ∧ 2 ≤ arr.length) :
    ∀ (l : List String),
      (∀ s ∈ l, s ∈ ((m.players.get? 0).getD default).strategies) →
      ∃ vals, payoffsForLeader parse m 0 p1 l = some vals ∧
        vals.length = l.length ∧ ∀ v ∈ vals, v.isSome = true := by
  intro l
  induction l with
  | nil =>
    intro _
    exact ⟨[], rfl, rfl, fun v hv => absurd hv (List.not_mem_nil v)⟩
  | cons s rest ih =>
    intro hsub
    obtain ⟨fidx, hf, hflt⟩ := calculateFollowerResponse_range parse m s hget1 hne1
    have hfs : p1.strategies.getD fidx "" ∈ p1.strategies := by
      rw [List.getD_eq_getElem p1.strategies "" hflt]
      exact List.getElem_mem hflt
    obtain ⟨arr, harr, hlen⟩ := hmx s (hsub s (List.mem_cons_self s rest))
      (p1.strategies.getD fidx "") hfs
    obtain ⟨vals, hvals, hvlen, hvsome⟩ := ih fun t ht => hsub t (List.mem_cons_of_mem s ht)
    obtain ⟨v, hv⟩ : ∃ v, arr.get? 0 = some v := by
      rcases h2 : arr.get? 0 with _ | v
      · rw [List.get?_eq_none] at h2
        omega
      · exact ⟨v, rfl⟩
    refine ⟨some v :: vals, ?_, by simp [hvlen], ?_⟩
    · simp only [payoffsForLeader, hf, harr, hvals, hv]
    · intro w hw
      rcases List.mem_cons.mp hw with rfl | hw2
      · rfl
      · exact hvsome w hw2

/-- `calculateEntryDeterrenceStrategy` returns a valid index whenever the
player is found in a two-player model with a non-empty strategy list. -/
theorem calculateEntryDeterrenceStrategy_range (m : GameModel) (playerId : String)
    (beliefs : List (String × List (String × ℚ))) {pi' : Nat} {player opponent : Player}
    (hfind : m.players.findIdx? (fun p => p.id == playerId) = some pi')
    (hget : m.players.get? pi' = some player)
    (hgeto : m.players.get? (1 - pi') = some opponent)
    (hne : player.strategies ≠ []) :
    ∃ i, calculateEntryDeterrenceStrategy m playerId beliefs = some i ∧ 0 ≤ i ∧
      i < player.strategies.length := by
  have hmapne : (player.strategies.map fun strategy =>
      (opponent.strategies.map fun os =>
        (match (List.lookup opponent.id beliefs).bind (fun b => List.lookup os b) with
          | some pr => pr
          | none => 1 / (opponent.strategies.length : ℚ)) *
        ((payoffEntry m (pairKey pi' strategy os)).bind (fun arr => arr.get? pi')).getD 0).sum)
        ≠ [] := by
    intro hcon
    exact hne (List.map_eq_nil.mp hcon)
  obtain ⟨h0, hlt⟩ := bestIdx_range hmapne
  refine ⟨_, ?_, h0, by rwa [List.length_map] at hlt⟩
  unfold calculateEntryDeterrenceStrategy
  simp only [hfind, hget, hgeto]

/-- The index returned by `findDominantStrategy` is a valid strategy index of
the located player. -/
theorem findDominantStrategy_lt (m : GameModel) (playerId : String) {pi' : Nat}
    {player : Player} {d : Nat}
    (hfind : m.players.findIdx? (fun p => p.id == playerId) = some pi')
    (hget : m.players.get? pi' = some player)
    (hd : findDominantStrategy m playerId = some d) : d < player.strategies.length := by
  unfold findDominantStrategy at hd
  rw [hfind] at hd
  have := List.mem_of_find?_eq_some hd
  rw [hget] at this
  exact List.mem_range.mp this

/-- When both hard-coded education signals are among the sender's
strategies, `calculateSignalingStrategy` returns a valid sender index. -/
theorem calculateSignalingStrategy_range (m : GameModel) {p0 : Player}
    (hget0 : m.players.get? 0 = some p0)
    (hm1 : "高教育投资" ∈ p0.strategies) (hm2 : "低教育投资" ∈ p0.strategies)
    (st : String) (step : Nat) :
    ∃ i, calculateSignalingStrategy m st step = some i ∧ 0 ≤ i ∧
      i < (p0.strategies.length : Int) := by
  unfold calculateSignalingStrategy
  simp only [hget0]
  by_cases hst : (st == "high") = true
  · rw [if_pos hst]
    obtain ⟨h0, hlt⟩ := jsIndexOfStr_range hm1
    exact ⟨_, rfl, h0, hlt⟩
  · rw [if_neg hst]
    obtain ⟨h0, hlt⟩ := jsIndexOfStr_range hm2
    exact ⟨_, rfl, h0, hlt⟩

/-- When both hard-coded wage offers are among the receiver's strategies,
`calculateReceiverResponse` returns a valid receiver index. -/
theorem calculateReceiverResponse_range (m : GameModel) {p1 : Player}
    (hget1 : m.players.get? 1 = some p1)
    (hm3 : "高薪聘用" ∈ p1.strategies) (hm4 : "低薪聘用" ∈ p1.strategies)
    (sig : String) (step : Nat) :
    ∃ i, calculateReceiverResponse m sig step = some i ∧ 0 ≤ i ∧
      i < (p1.strategies.length : Int) := by
  unfold calculateReceiverResponse
  simp only [hget1]
  by_cases hs : (sig == "高教育投资") = true
  · rw [if_pos hs]
    obtain ⟨h0, hlt⟩ := jsIndexOfStr_range hm3
    exact ⟨_, rfl, h0, hlt⟩
  · rw [if_neg hs]
    obtain ⟨h0, hlt⟩ := jsIndexOfStr_range hm4
    exact ⟨_, rfl, h0, hlt⟩

theorem mem_of_getLast?_eq_some {α : Type} {l : List α} {a : α}
    (h : l.getLast? = some a) : a ∈ l := by
  obtain ⟨hne, heq⟩ := List.mem_getLast?_eq_getLast (show a ∈ l.getLast? from h)
  rw [heq]
  exact List.getLast_mem hne

/-- C1, corrected: over every two-player model satisfying the app's model
invariants — both players present with non-empty strategy lists, a full
payoff matrix keyed by comma-joined strategy pairs with at least two values
per entry, a history whose recorded choices are valid strategies, the four
hard-coded education/wage strategy names present (and the sender first with
id "1") whenever the model is the signaling game, and at least two
strategies per player in the complete-information entry-deterrence game —
whenever the requested player id is found among the players,
`calculateStrategyChoice` returns an integer index in the half-open range
`[0, strategies.length)` of that player's strategy list.  The original
unconditional claim is refuted by `calculateStrategyChoice_cex`: a
signaling-game model without the hard-coded strategy names makes the
signaling branch return the JS `indexOf` miss value `-1`. -/
theorem calculateStrategyChoice_range (parse : String → ℚ) (m : GameModel)
    (playerId : String) (step : Nat) (results : List SimulationResult) (rand : Nat)
    {p0 p1 : Player} {pi' : Nat} {player : Player}
    (hpl : m.players = [p0, p1])
    (hfind : m.players.findIdx? (fun p => p.id == playerId) = some pi')
    (hget : m.players.get? pi' = some player)
    (hne0 : p0.strategies ≠ []) (hne1 : p1.strategies ≠ [])
    (hmx : ∀ s0 ∈ p0.strategies, ∀ s1 ∈ p1.strategies,
      ∃ arr, payoffEntry m (s0 ++ "," ++ s1) = some arr ∧ 2 ≤ arr.length)
    (hhist : ∀ r ∈ results, ∀ pl ∈ m.players,
      ∃ s, List.lookup pl.id r.playerChoices = some s ∧ s ∈ pl.strategies)
    (hsig : m.id = "signaling-game" →
      "高教育投资" ∈ p0.strategies ∧ "低教育投资" ∈ p0.strategies ∧
      "高薪聘用" ∈ p1.strategies ∧ "低薪聘用" ∈ p1.strategies ∧ p0.id = "1")
    (hent : m.id = "entry-deterrence-complete" →
      2 ≤ p0.strategies.length ∧ 2 ≤ p1.strategies.length) :
    ∃ i, calculateStrategyChoice parse m playerId step results rand = some i ∧
      0 ≤ i ∧ i < (player.strategies.length : Int) := by
  have hget0 : m.players.get? 0 = some p0 := by rw [hpl]; rfl
  have hget1 : m.players.get? 1 = some p1 := by rw [hpl]; rfl
  have hpi2 : pi' < 2 := by
    have h := findIdx?_some_lt hfind
    rw [hpl] at h
    simpa using h
  have hcase : pi' = 0 ∧ player = p0 ∨ pi' = 1 ∧ player = p1 := by
    interval_cases pi'
    · left
      refine ⟨rfl, ?_⟩
      rw [hget0] at hget
      exact (Option.some.inj hget).symm
    · right
      refine ⟨rfl, ?_⟩
      rw [hget1] at hget
      exact (Option.some.inj hget).symm
  have hpne : player.strategies ≠ [] := by
    rcases hcase with ⟨_, rfl⟩ | ⟨_, rfl⟩
    · exact hne0
    · exact hne1
  have hppos : 0 < player.strategies.length := List.length_pos.mpr hpne
  unfold calculateStrategyChoice
  simp only [hfind, hget, Option.getD_some]
  rcases htype : m.type with _ | _ | _ | _ | _ | _ | _
  · -- completeStatic
    simp only [htype]
    by_cases hid : (m.id == "prisoners-dilemma" || m.id == "smart-pig") = true
    · rw [if_pos hid]
      rcases hdom : findDominantStrategy m playerId with _ | d
      · simp only [hdom]
        rcases hcase with ⟨h1, h2⟩ | ⟨h1, h2⟩
        · simp only [h1, Nat.sub_zero, hget1]
          rcases hlast : results.getLast? with _ | r
          · simp only [hlast]
            have hos : randChoice p1.strategies rand ∈ p1.strategies :=
              randChoice_mem hne1 rand
            have hmxk : ∀ s ∈ player.strategies, ∃ arr,
                payoffEntry m (pairKey pi' s (randChoice p1.strategies rand)) = some arr ∧
                  2 ≤ arr.length := by
              intro s hs
              rw [h1]
              simpa [pairKey] using hmx s (h2 ▸ hs) _ hos
            obtain ⟨i, hi, hz, hlt⟩ := calculateBestResponse_range m playerId
              (randChoice p1.strategies rand) hfind hget hpi2 hpne hmxk
            exact ⟨i, hi, hz, hlt⟩
          · simp only [hlast]
            have hrmem : r ∈ results := mem_of_getLast?_eq_some hlast
            obtain ⟨s, hsl, hsm⟩ := hhist r hrmem p1 (by rw [hpl]; simp)
            simp only [hsl, Option.getD_some]
            have hmxk : ∀ t ∈ player.strategies, ∃ arr,
                payoffEntry m (pairKey pi' t s) = some arr ∧ 2 ≤ arr.length := by
              intro t ht
              rw [h1]
              simpa [pairKey] using hmx t (h2 ▸ ht) s hsm
            obtain ⟨i, hi, hz, hlt⟩ := calculateBestResponse_range m playerId
              s hfind hget hpi2 hpne hmxk
            exact ⟨i, hi, hz, hlt⟩
        · simp only [h1, Nat.sub_self, hget0]
          rcases hlast : results.getLast? with _ | r
          · simp only [hlast]
            have hos : randChoice p0.strategies rand ∈ p0.strategies :=
              randChoice_mem hne0 rand
            have hmxk : ∀ s ∈ player.strategies, ∃ arr,
                payoffEntry m (pairKey pi' s (randChoice p0.strategies rand)) = some arr ∧
                  2 ≤ arr.length := by
              intro s hs
              rw [h1]
              simpa [pairKey] using hmx _ hos s (h2 ▸ hs)
            obtain ⟨i, hi, hz, hlt⟩ := calculateBestResponse_range m playerId
              (randChoice p0.strategies rand) hfind hget hpi2 hpne hmxk
            exact ⟨i, hi, hz, hlt⟩
          · simp only [hlast]
            have hrmem : r ∈ results := mem_of_getLast?_eq_some hlast
            obtain ⟨s, hsl, hsm⟩ := hhist r hrmem p0 (by rw [hpl]; simp)
            simp only [hsl, Option.getD_some]
            have hmxk : ∀ t ∈ player.strategies, ∃ arr,
                payoffEntry m (pairKey pi' t s) = some arr ∧ 2 ≤ arr.length := by
              intro t ht
              rw [h1]
              simpa [pairKey] using hmx s hsm t (h2 ▸ ht)
            obtain ⟨i, hi, hz, hlt⟩ := calculateBestResponse_range m playerId
              s hfind hget hpi2 hpne hmxk
            exact ⟨i, hi, hz, hlt⟩
      · simp only [hdom]
        refine ⟨(d : Int), rfl, Int.ofNat_nonneg d, ?_⟩
        have := findDominantStrategy_lt m playerId hfind hget hdom
        exact_mod_cast this
    · rw [if_neg hid]
      exact ⟨0, rfl, le_refl 0, by exact_mod_cast hppos⟩
  · -- completeDynamic
    simp only [htype]
    by_cases hid : (m.id == "stackelberg") = true
    · rw [if_pos hid]
      by_cases hp0 : (pi' == 0) = true
      · rw [if_pos hp0]
        obtain ⟨hpi0, hplayer⟩ : pi' = 0 ∧ player = p0 := by
          rcases hcase with h | ⟨h1, _⟩
          · exact h
          · rw [h1] at hp0
            simp at hp0
        simp only [hpi0, hplayer, Nat.sub_zero, hget1]
        have hgd : ((m.players.get? 0).getD default) = p0 := by rw [hget0]; rfl
        obtain ⟨vals, hvals, hvlen, hvsome⟩ := payoffsForLeader_full parse m hget1 hne1
          (by rw [hgd]; exact hmx) p0.strategies (by rw [hgd]; exact fun s hs => hs)
        simp only [hvals]
        have hanyF : (vals.any fun v => v.isNone) = false := by
          rw [Bool.eq_false_iff]
          intro hcon
          rw [List.any_eq_true] at hcon
          obtain ⟨v, hv, hvn⟩ := hcon
          rw [Option.isNone_iff_eq_none] at hvn
          have := hvsome v hv
          rw [hvn] at this
          cases this
        rw [if_neg (by simp [hanyF])]
        have hmapne : (vals.map fun v => v.getD 0) ≠ [] := by
          intro hcon
          have := congrArg List.length hcon
          rw [List.length_map, hvlen] at this
          exact hne0 (List.length_eq_zero.mp this)
        obtain ⟨h0, hlt⟩ := bestIdx_range hmapne
        refine ⟨_, rfl, h0, ?_⟩
        rw [List.length_map, hvlen] at hlt
        exact hlt
      · rw [if_neg hp0]
        obtain ⟨hpi1, hplayer⟩ : pi' = 1 ∧ player = p1 := by
          rcases hcase with ⟨h1, _⟩ | h
          · rw [h1] at hp0
            simp at hp0
          · exact h
        rcases hlast : results.getLast? with _ | r
        · simp only [hlast, hplayer]
          exact ⟨0, rfl, le_refl 0, by exact_mod_cast List.length_pos.mpr hne1⟩
        · simp only [hlast, hget0, Option.getD_some]
          have hrmem : r ∈ results := mem_of_getLast?_eq_some hlast
          obtain ⟨s, hsl, hsm⟩ := hhist r hrmem p0 (by rw [hpl]; simp)
          simp only [hsl, Option.getD_some]
          obtain ⟨fi, hf, hflt⟩ := calculateFollowerResponse_range parse m s hget1 hne1
          simp only [hf, hplayer]
          exact ⟨(fi : Int), rfl, Int.ofNat_nonneg fi, by exact_mod_cast hflt⟩
    · rw [if_neg hid]
      by_cases hid2 : (m.id == "entry-deterrence-complete") = true
      · rw [if_pos hid2]
        have hide : m.id = "entry-deterrence-complete" := by simpa using hid2
        obtain ⟨hl0, hl1⟩ := hent hide
        have h2p : 2 ≤ player.strategies.length := by
          rcases hcase with ⟨_, rfl⟩ | ⟨_, rfl⟩
          · exact hl0
          · exact hl1
        by_cases hpid : (playerId == "1") = true
        · rw [if_pos hpid]
          exact ⟨0, rfl, le_refl 0, by exact_mod_cast hppos⟩
        · rw [if_neg hpid]
          rcases hc : (results.getLast? >>= fun r => List.lookup "1" r.playerChoices)
            with _ | c
          · simp only [hc]
            exact ⟨0, rfl, le_refl 0, by exact_mod_cast hppos⟩
          · simp only [hc]
            by_cases hcv : (c == "投资") = true
            · rw [if_pos hcv]
              exact ⟨1, rfl, by decide, by exact_mod_cast h2p⟩
            · rw [if_neg hcv]
              exact ⟨0, rfl, le_refl 0, by exact_mod_cast hppos⟩
      · rw [if_neg hid2]
        exact ⟨0, rfl, le_refl 0, by exact_mod_cast hppos⟩
  · -- incompleteStatic
    simp only [htype]
    by_cases hid : (m.id == "insurance-market") = true
    · rw [if_pos hid]
      have hgeto : ∃ opp, m.players.get? (1 - pi') = some opp := by
        rcases hcase with ⟨h1, _⟩ | ⟨h1, _⟩
        · exact ⟨p1, by rw [h1]; exact hget1⟩
        · exact ⟨p0, by rw [h1]; exact hget0⟩
      obtain ⟨opp, hgeto⟩ := hgeto
      obtain ⟨i, hi, h0, hlt⟩ := calculateEntryDeterrenceStrategy_range m playerId
        (updateBeliefsFull m results) hfind hget hgeto hpne
      exact ⟨i, hi, h0, hlt⟩
    · rw [if_neg hid]
      exact ⟨0, rfl, le_refl 0, by exact_mod_cast hppos⟩
  · -- incompleteDynamic
    simp only [htype]
    by_cases hid : (m.id == "signaling-game") = true
    · rw [if_pos hid]
      have hide : m.id = "signaling-game" := by simpa using hid
      obtain ⟨hm1, hm2, hm3, hm4, hp0id⟩ := hsig hide
      by_cases hpid : (playerId == "1") = true
      · rw [if_pos hpid]
        have hpide : playerId = "1" := by simpa using hpid
        have hppq : (p0.id == playerId) = true := by simp [hp0id, hpide]
        have hpi0 : pi' = 0 := by
          rw [hpl, List.findIdx?_cons, if_pos hppq] at hfind
          exact (Option.some.inj hfind).symm
        have hplayer : player = p0 := by
          rcases hcase with ⟨_, h2⟩ | ⟨h1, _⟩
          · exact h2
          · rw [hpi0] at h1
            exact absurd h1 (by decide)
        rw [hplayer]
        exact calculateSignalingStrategy_range m hget0 hm1 hm2 _ step
      · rw [if_neg hpid]
        have hpi1 : pi' = 1 := by
          rw [hpl, List.findIdx?_cons] at hfind
          by_cases hb : (p0.id == playerId) = true
          · exfalso
            apply hpid
            have hb2 : p0.id = playerId := by simpa using hb
            rw [← hb2, hp0id]
            simp
          · rw [if_neg hb, List.findIdx?_cons] at hfind
            by_cases hb2 : (p1.id == playerId) = true
            · rw [if_pos hb2] at hfind
              exact (Option.some.inj hfind).symm
            · rw [if_neg hb2] at hfind
              simp [List.findIdx?] at hfind
        have hplayer : player = p1 := by
          rcases hcase with ⟨h1, _⟩ | ⟨_, h2⟩
          · rw [hpi1] at h1
            exact absurd h1 (by decide)
          · exact h2
        rw [hplayer]
        exact calculateReceiverResponse_range m hget1 hm3 hm4 _ step
    · rw [if_neg hid]
      exact ⟨0, rfl, le_refl 0, by exact_mod_cast hppos⟩
  · -- stackelbergType
    simp only [htype]
    exact ⟨0, rfl, le_refl 0, by exact_mod_cast hppos⟩
  · -- entryDeterrenceType
    simp only [htype]
    exact ⟨0, rfl, le_refl 0, by exact_mod_cast hppos⟩
  · -- signalingType
    simp only [htype]
    exact ⟨0, rfl, le_refl 0, by exact_mod_cast hppos⟩

/-- Witness for C1: the amended range theorem instantiated at the
prisoner's-dilemma fixture for player 1, whose strategy list has length 2. -/
theorem calculateStrategyChoice_range_witness :
    ∃ i, calculateStrategyChoice (fun _ => 0) pdTestModel "1" 0 [] 0 = some i ∧
      0 ≤ i ∧ i < ((Player.mk "1" "囚徒1" ["坦白", "抵赖"]).strategies.length : Int) :=
  @calculateStrategyChoice_range (fun _ => 0) pdTestModel "1" 0 [] 0
    ⟨"1", "囚徒1", ["坦白", "抵赖"]⟩ ⟨"2", "囚徒2", ["坦白", "抵赖"]⟩ 0
    ⟨"1", "囚徒1", ["坦白", "抵赖"]⟩ rfl (by decide) rfl (by decide) (by decide)
    (by
      intro s0 hs0 s1 hs1
      fin_cases hs0 <;> fin_cases hs1 <;> exact ⟨_, rfl, by decide⟩)
    (fun r hr => absurd hr (List.not_mem_nil r))
    (fun h => absurd h (by decide))
    (fun h => absurd h (by decide))

/-- JS `model.players[1 - playerIndex]`: for `playerIndex ≥ 2` the JS index
`1 - playerIndex` is negative and the access yields `undefined` (`none`). -/
def opponentAt (m : GameModel) (pi' : Nat) : Option Player :=
  if pi' ≤ 1 then m.players.get? (1 - pi') else none

/-- Crash-aware `findDominantStrategy` (`src/utils/gameTheory.ts` lines
12-53): the outer `none` is the uncaught TypeError at line 29
(`opponent.strategies` with an `undefined` opponent), reached exactly when
the player is found, it has at least two strategies (so a pair `i ≠ j` of
candidate indices exists and the inner loop head runs), and
`model.players[1 - playerIndex]` is `undefined`.  In every returning case
the value is the one computed by the total `findDominantStrategy`: with an
opponent present the loops read that same opponent, and with fewer than two
strategies the comparison loops never run, so the opponent is never read
(one strategy is vacuously dominant, zero strategies yield `undefined`). -/
def findDominantStrategyE (m : GameModel) (playerId : String) :
    Option (Option Nat) :=
  match m.players.findIdx? (fun p => p.id == playerId) with
  | none => some none
  | some pi' =>
    let player := (m.players.get? pi').getD default
    match opponentAt m pi' with
    | none =>
      if 2 ≤ player.strategies.length then none
      else some (findDominantStrategy m playerId)
    | some _ => some (findDominantStrategy m playerId)

/-- The `dominantStrategies` map at the top of `analyzeGameResults` (line
547): the first player whose `findDominantStrategy` call throws aborts the
whole function. -/
def dominantStrategiesE (m : GameModel) : List Player → Option (List (Option Nat))
  | [] => some []
  | p :: rest =>
    match findDominantStrategyE m p.id with
    | none => none
    | some d =>
      match dominantStrategiesE m rest with
      | none => none
      | some ds => some (d :: ds)

/-- `analyzeGameResults`, deviation gain of one player, with the source's
opponent lookup `model.players[1 - playerIndex]` kept as a JS index: an
absent opponent (one-player models, or a player at index at least 2) maps
every alternative strategy to `-Infinity` (`if (!opponent) return
-Infinity`); the stability block never throws. -/
def deviationGainOfE (m : GameModel) (last : SimulationResult) (player : Player) : JsNum :=
  match m.players.findIdx? (fun p => p.id == player.id) with
  | none => some ⊥
  | some pidx =>
    let maxDev :=
      match opponentAt m pidx with
      | some opponent =>
        ((specAlternatives player last).map
          (deviationPayoff m last pidx opponent)).foldl jsMax (some ⊥)
      | none =>
        ((specAlternatives player last).map (fun _ => (some ⊥ : JsNum))).foldl jsMax (some ⊥)
    jsSubNum maxDev (List.lookup player.id last.payoffs)

/-- `analyzeGameResults`, stability block (lines 593-631), with the JS
opponent index kept. -/
def stabilityAnalysisOfE (m : GameModel) (results : List SimulationResult) :
    Bool × List (String × JsNum) :=
  match results.getLast? with
  | none => (true, [])
  | some last =>
    let gains := m.players.map fun player => (player.id, deviationGainOfE m last player)
    (gains.all fun g => ! jsGtZero g.2, gains)

/-- Crash-aware `analyzeGameResults` (`src/utils/gameTheory.ts` lines
534-640): `none` is the uncaught TypeError thrown from the initial
`dominantStrategies` map.  Every later step is total in the source:
`calculateMixedEquilibrium` guards its player accesses and returns
`undefined` for non-2x2 models, the convergence test and the stability
block only index objects (yielding `undefined`, never a throw) and guard
the opponent with `if (!opponent)`. -/
def analyzeGameResultsE (m : GameModel) (results : List SimulationResult) :
    Option AnalysisResult :=
  match dominantStrategiesE m m.players with
  | none => none
  | some dominantStrategies =>
    let mixedEquilibrium := calculateMixedEquilibrium m
    let convergence := convergenceCheck m results
    let equilibriumType := equilibriumTypeOf m dominantStrategies mixedEquilibrium convergence
    let stability := stabilityAnalysisOfE m results
    some ⟨dominantStrategies, mixedEquilibrium, convergence, equilibriumType,
      stability.1, stability.2⟩

/-- A three-player model: the dominant-strategy scan for the third prisoner
reads `players[1 - 2]`, i.e. `players[-1].strategies`, in the source. -/
def cexThreeModel : GameModel :=
  { id := "prisoners-dilemma"
    type := GameType.completeStatic
    players := [⟨"1", "囚徒1", ["坦白", "抵赖"]⟩, ⟨"2", "囚徒2", ["坦白", "抵赖"]⟩,
                ⟨"3", "囚徒3", ["坦白", "抵赖"]⟩]
    payoffMatrix := [("坦白,坦白", [-8, -8]), ("坦白,抵赖", [0, -10]),
                     ("抵赖,坦白", [-10, 0]), ("抵赖,抵赖", [-1, -1])] }

/-- Ten identical all-坦白 rounds of the three-player model. -/
def cexTenResults : List SimulationResult :=
  List.replicate 10
    ⟨0, [("1", "坦白"), ("2", "坦白"), ("3", "坦白")],
      [("1", -8), ("2", -8), ("3", -8)], []⟩

/-- Ten identical all-坦白 rounds of the two-player fixture. -/
def pdTenResults : List SimulationResult :=
  List.replicate 10
    ⟨0, [("1", "坦白"), ("2", "坦白")], [("1", -8), ("2", -8)], []⟩

/-- Counterexample to C8 as stated: on a three-player model the source's
`analyzeGameResults` throws a TypeError (the dominant-strategy scan for the
third player reads `players[-1].strategies`) before computing convergence,
even on a ten-round history of identical choices, so it does not return a
convergence verdict for every model and results sequence. -/
theorem analyzeGameResults_convergence_cex :
    analyzeGameResultsE cexThreeModel cexTenResults = none := rfl

/-- C8, corrected: whenever the source's `analyzeGameResults` returns at all
(its initial dominant-strategy scan throws a TypeError for any model with a
player at index at least 2 — or a lone player — owning at least two
strategies), the returned record reports convergence exactly when at least
10 results exist and, within the most recent 10, every player's recorded
choice is the same across all of them. -/
theorem analyzeGameResultsE_convergence (m : GameModel)
    (results : List SimulationResult) (r : AnalysisResult)
    (h : analyzeGameResultsE m results = some r) :
    (r.convergence = true ↔
      (10 ≤ results.length ∧
       ∀ p ∈ m.players, ∃ c : Option String,
         ∀ x ∈ takeLast 10 results, List.lookup p.id x.playerChoices = c)) := by
  have hconv : r.convergence = convergenceCheck m results := by
    unfold analyzeGameResultsE at h
    rcases hds : dominantStrategiesE m m.players with _ | ds
    · simp only [hds] at h
      exact Option.noConfusion h
    · simp only [hds] at h
      obtain rfl := Option.some.inj h
      rfl
  rw [hconv]
  exact analyzeGameResults_convergence m results

/-- Witness for C8: the two-player prisoner's-dilemma fixture with a
ten-round all-坦白 history returns a record, and its convergence verdict
matches the last-10-identical characterization. -/
theorem analyzeGameResultsE_convergence_witness :
    (analyzeGameResultsE pdTestModel pdTenResults =
      some (analyzeGameResults pdTestModel pdTenResults)) ∧
    ((analyzeGameResults pdTestModel pdTenResults).convergence = true ↔
      (10 ≤ pdTenResults.length ∧
       ∀ p ∈ pdTestModel.players, ∃ c : Option String,
         ∀ x ∈ takeLast 10 pdTenResults, List.lookup p.id x.playerChoices = c)) :=
  ⟨rfl, analyzeGameResultsE_convergence pdTestModel pdTenResults _ rfl⟩

/-- Counterexample to C10 as stated: even with an empty results sequence the
source's `analyzeGameResults` throws on a three-player model (the
dominant-strategy scan runs before the results are consulted), so no
default-stable record is returned for every model. -/
theorem analyzeGameResults_empty_cex :
    analyzeGameResultsE cexThreeModel [] = none := rfl

/-- C10, corrected: whenever `analyzeGameResults` applied to an empty
results sequence returns at all (for any model whose dominant-strategy scan
does not throw, in particular every two-player model), the returned record
has `stabilityAnalysis.isStable = true`, an empty `deviationGains` map and
`convergence = false`. -/
theorem analyzeGameResultsE_empty (m : GameModel) (r : AnalysisResult)
    (h : analyzeGameResultsE m [] = some r) :
    r.isStable = true ∧ r.deviationGains = [] ∧ r.convergence = false := by
  unfold analyzeGameResultsE at h
  rcases hds : dominantStrategiesE m m.players with _ | ds
  · simp only [hds] at h
    exact Option.noConfusion h
  · simp only [hds] at h
    obtain rfl := Option.some.inj h
    refine ⟨rfl, rfl, ?_⟩
    simp [convergenceCheck]

/-- Witness for C10: the two-player fixture with empty results returns the
default-stable record. -/
theorem analyzeGameResultsE_empty_witness :
    (analyzeGameResultsE pdTestModel [] = some (analyzeGameResults pdTestModel [])) ∧
    ((analyzeGameResults pdTestModel []).isStable = true ∧
     (analyzeGameResults pdTestModel []).deviationGains = [] ∧
     (analyzeGameResults pdTestModel []).convergence = false) :=
  ⟨rfl, analyzeGameResultsE_empty pdTestModel _ rfl⟩

end GameSim
